import Mathlib

/-!
Shallow embedding of `microwink/seg.py` (plus the parts of `microwink/common.py`
that are referenced but whose source is not available, modelled from the spec),
with theorems settling the behavioural claims about the model pipeline.

Scalars of the numeric pipeline are modelled as `ℚ` (exact arithmetic, the
idealization of the float computations); the final sigmoid activation is over
`ℝ`.  Numpy arrays are modelled as index functions together with explicit
lengths; external capabilities (image resize, mask resize, NMS) are parameters.
-/

namespace Microwink

/-- Python's built-in `round`: round half to even (banker's rounding),
as used by `round(iw * r)` etc. in `seg.py`. -/
def pyRound (q : ℚ) : ℤ :=
  let f : ℤ := ⌊q⌋
  let frac : ℚ := q - f
  if frac < 1 / 2 then f
  else if 1 / 2 < frac then f + 1
  else if 2 ∣ f then f else f + 1

theorem pyRound_intCast (n : ℤ) : pyRound (n : ℚ) = n := by
  simp [pyRound]

theorem pyRound_int_sub_tenth (k : ℤ) : pyRound ((k : ℚ) - 1 / 10) = k := by
  have hf : ⌊(k : ℚ) - 1 / 10⌋ = k - 1 := by
    rw [sub_eq_add_neg, Int.floor_int_add]
    norm_num
    omega
  simp only [pyRound, hf]
  push_cast
  norm_num

theorem pyRound_int_add_tenth (k : ℤ) : pyRound ((k : ℚ) + 1 / 10) = k := by
  have hf : ⌊(k : ℚ) + 1 / 10⌋ = k := by
    rw [Int.floor_int_add]
    norm_num
  simp only [pyRound, hf]
  norm_num

theorem pyRound_int_add_two_fifth (k : ℤ) : pyRound ((k : ℚ) + 2 / 5) = k := by
  have hf : ⌊(k : ℚ) + 2 / 5⌋ = k := by
    rw [Int.floor_int_add]
    norm_num
  simp only [pyRound, hf]
  norm_num

theorem pyRound_int_add_three_fifth (k : ℤ) : pyRound ((k : ℚ) + 3 / 5) = k + 1 := by
  have hf : ⌊(k : ℚ) + 3 / 5⌋ = k := by
    rw [Int.floor_int_add]
    norm_num
  simp only [pyRound, hf]
  norm_num

/-- The symmetric letterbox pads `round(p - 0.1)` and `round(p + 0.1)` with
`p = d/2` always sum back to `d`. -/
theorem pyRound_pad_sum (d : ℤ) :
    pyRound ((d : ℚ) / 2 - 1 / 10) + pyRound ((d : ℚ) / 2 + 1 / 10) = d := by
  rcases Int.even_or_odd d with ⟨k, hk⟩ | ⟨k, hk⟩
  · subst hk
    have h2 : ((k + k : ℤ) : ℚ) / 2 = (k : ℚ) := by push_cast; ring
    rw [h2, pyRound_int_sub_tenth, pyRound_int_add_tenth]
  · subst hk
    have hsub : ((2 * k + 1 : ℤ) : ℚ) / 2 - 1 / 10 = (k : ℚ) + 2 / 5 := by
      push_cast; ring
    have hadd : ((2 * k + 1 : ℤ) : ℚ) / 2 + 1 / 10 = (k : ℚ) + 3 / 5 := by
      push_cast; ring
    rw [hsub, hadd, pyRound_int_add_two_fifth, pyRound_int_add_three_fifth]
    ring

/-! ## Data model -/

/-- Pixel buffer of an RGB image: `px y x c` is the 0..255 value of channel `c`
at row `y`, column `x` (the `np.array(image)` HWC layout). -/
def Pix := ℕ → ℕ → ℕ → ℕ

/-- A PIL image as consumed by `SegModel.apply`: size, mode string and pixels. -/
structure Img where
  h : ℕ
  w : ℕ
  mode : String
  px : Pix

/-- `Threshold` dataclass with its documented defaults. -/
structure Threshold where
  confidence : ℚ := 3 / 5
  iou : ℚ := 1 / 2

/-- `Threshold.default()`. -/
def Threshold.default : Threshold := {}

/-- External image-resize capability (`resize(buf, (w, h))` backed by PIL Lanczos):
takes source height/width, the buffer, and target height/width. -/
def ResizeImgCap := ℕ → ℕ → Pix → ℕ → ℕ → Pix

/-- Channel accessor of a constant border color. -/
def colorAt (color : ℕ × ℕ × ℕ) (c : ℕ) : ℕ :=
  if c = 0 then color.1 else if c = 1 then color.2.1 else color.2.2

/-- `cv2.copyMakeBorder(img, top, bottom, left, right, BORDER_CONSTANT, value=color)`:
the inner image sits at offset `(top, left)`; everything else is the fill color. -/
def withBorder (innerH innerW top left : ℤ) (color : ℕ × ℕ × ℕ) (f : Pix) : Pix :=
  fun y x c =>
    if top ≤ (y : ℤ) ∧ (y : ℤ) < top + innerH ∧ left ≤ (x : ℤ) ∧ (x : ℤ) < left + innerW
    then f ((y : ℤ) - top).toNat ((x : ℤ) - left).toNat c
    else colorAt color c

/-! ## Letterbox preprocessing (`SegModel.preprocess`) -/

/-- `r = min(oh / ih, ow / iw)`. -/
def letterboxR (ih iw oh ow : ℕ) : ℚ :=
  min ((oh : ℚ) / (ih : ℚ)) ((ow : ℚ) / (iw : ℚ))

/-- `rw = round(iw * r)`. -/
def letterboxRW (ih iw oh ow : ℕ) : ℤ :=
  pyRound ((iw : ℚ) * letterboxR ih iw oh ow)

/-- `rh = round(ih * r)`. -/
def letterboxRH (ih iw oh ow : ℕ) : ℤ :=
  pyRound ((ih : ℚ) * letterboxR ih iw oh ow)

/-- `pad_w = (ow - rw) / 2`. -/
def letterboxPadW (ih iw oh ow : ℕ) : ℚ :=
  ((ow : ℚ) - (letterboxRW ih iw oh ow : ℚ)) / 2

/-- `pad_h = (oh - rh) / 2`. -/
def letterboxPadH (ih iw oh ow : ℕ) : ℚ :=
  ((oh : ℚ) - (letterboxRH ih iw oh ow : ℚ)) / 2

/-- The `(iw, ih) != (rw, rh)` test guarding the resize call. -/
def letterboxNeedResize (ih iw oh ow : ℕ) : Prop :=
  ((iw : ℤ), (ih : ℤ)) ≠ (letterboxRW ih iw oh ow, letterboxRH ih iw oh ow)

instance (ih iw oh ow : ℕ) : Decidable (letterboxNeedResize ih iw oh ow) := by
  unfold letterboxNeedResize; infer_instance

/-- Result of `SegModel.preprocess`: the returned `(blob, ratio, (pad_w, pad_h))`
plus the constants it used (border pads, fill color, resize flag) and the blob's
shape `(1, 3, H, W)`. -/
structure PreOut where
  r : ℚ
  padW : ℚ
  padH : ℚ
  top : ℤ
  bottom : ℤ
  left : ℤ
  right : ℤ
  color : ℕ × ℕ × ℕ
  resized : Bool
  blobShape : ℕ × ℕ × ℤ × ℤ
  blob : ℕ → ℕ → ℕ → ℚ

/-- The `PreOut` built by `SegModel.preprocess` on its non-failing path. -/
def preprocessRaw (resizeImg : ResizeImgCap) (ih iw : ℕ) (px : Pix) (oh ow : ℕ) :
    PreOut :=
  let rw := letterboxRW ih iw oh ow
  let rh := letterboxRH ih iw oh ow
  let padW := letterboxPadW ih iw oh ow
  let padH := letterboxPadH ih iw oh ow
  let inner : Pix :=
    if letterboxNeedResize ih iw oh ow then resizeImg ih iw px rh.toNat rw.toNat else px
  let innerH : ℤ := if letterboxNeedResize ih iw oh ow then rh else (ih : ℤ)
  let innerW : ℤ := if letterboxNeedResize ih iw oh ow then rw else (iw : ℤ)
  let top := pyRound (padH - 1 / 10)
  let bottom := pyRound (padH + 1 / 10)
  let left := pyRound (padW - 1 / 10)
  let right := pyRound (padW + 1 / 10)
  let bordered : Pix := withBorder innerH innerW top left (114, 114, 114) inner
  { r := letterboxR ih iw oh ow
    padW := padW
    padH := padH
    top := top
    bottom := bottom
    left := left
    right := right
    color := (114, 114, 114)
    resized := decide (letterboxNeedResize ih iw oh ow)
    blobShape := (1, 3, top + innerH + bottom, left + innerW + right)
    blob := fun c y x => (1 / 255 : ℚ) * (bordered y x c : ℚ) }

/-- `SegModel.preprocess`: letterbox an `(ih, iw)` RGB buffer into the model's
`(oh, ow)` input shape with fill color `(114, 114, 114)` and `EPS = 0.1` pad
rounding, normalizing by `1/255` into a CHW blob.  Returns `none` exactly when
the resize step is reached with a non-positive target dimension (the
`assert w > 0` / `assert h > 0` preconditions of `resize` fail). -/
def preprocess (resizeImg : ResizeImgCap) (ih iw : ℕ) (px : Pix) (oh ow : ℕ) :
    Option PreOut :=
  if letterboxNeedResize ih iw oh ow ∧
      (letterboxRW ih iw oh ow ≤ 0 ∨ letterboxRH ih iw oh ow ≤ 0) then none
  else some (preprocessRaw resizeImg ih iw px oh ow)

/-- The padded height `top + innerH + bottom` recovers the model height `oh`. -/
theorem letterbox_height_total (ih iw oh ow : ℕ) :
    pyRound (letterboxPadH ih iw oh ow - 1 / 10) +
      (if letterboxNeedResize ih iw oh ow then letterboxRH ih iw oh ow else (ih : ℤ)) +
      pyRound (letterboxPadH ih iw oh ow + 1 / 10) = (oh : ℤ) := by
  have hpad : letterboxPadH ih iw oh ow = (((oh : ℤ) - letterboxRH ih iw oh ow : ℤ) : ℚ) / 2 := by
    unfold letterboxPadH
    push_cast
    ring
  have hsum := pyRound_pad_sum ((oh : ℤ) - letterboxRH ih iw oh ow)
  rw [hpad]
  by_cases hnr : letterboxNeedResize ih iw oh ow
  · rw [if_pos hnr]
    omega
  · rw [if_neg hnr]
    unfold letterboxNeedResize at hnr
    rw [not_ne_iff, Prod.mk.injEq] at hnr
    omega

/-- The padded width `left + innerW + right` recovers the model width `ow`. -/
theorem letterbox_width_total (ih iw oh ow : ℕ) :
    pyRound (letterboxPadW ih iw oh ow - 1 / 10) +
      (if letterboxNeedResize ih iw oh ow then letterboxRW ih iw oh ow else (iw : ℤ)) +
      pyRound (letterboxPadW ih iw oh ow + 1 / 10) = (ow : ℤ) := by
  have hpad : letterboxPadW ih iw oh ow = (((ow : ℤ) - letterboxRW ih iw oh ow : ℤ) : ℚ) / 2 := by
    unfold letterboxPadW
    push_cast
    ring
  have hsum := pyRound_pad_sum ((ow : ℤ) - letterboxRW ih iw oh ow)
  rw [hpad]
  by_cases hnr : letterboxNeedResize ih iw oh ow
  · rw [if_pos hnr]
    omega
  · rw [if_neg hnr]
    unfold letterboxNeedResize at hnr
    rw [not_ne_iff, Prod.mk.injEq] at hnr
    omega

/-- C4: for positive image and model dimensions (and the resize target
dimensions `rw = round(iw*r)`, `rh = round(ih*r)` being positive, without which
the `resize` assertions fail), `preprocess` computes `r = min(oh/ih, ow/iw)`,
`padW = (ow-rw)/2`, `padH = (oh-rh)/2`, pads with `top = round(padH-0.1)`,
`bottom = round(padH+0.1)`, `left = round(padW-0.1)`, `right = round(padW+0.1)`
and fill color `(114,114,114)`, and returns a blob of shape exactly
`(1, 3, oh, ow)` together with `(r, padW, padH)`. -/
theorem preprocess_letterbox_spec (resizeImg : ResizeImgCap) (px : Pix)
    (ih iw oh ow : ℕ) (_hih : 0 < ih) (_hiw : 0 < iw) (_hoh : 0 < oh) (_how : 0 < ow)
    (hrw : 0 < letterboxRW ih iw oh ow) (hrh : 0 < letterboxRH ih iw oh ow) :
    ∃ pre : PreOut,
      preprocess resizeImg ih iw px oh ow = some pre ∧
      pre.r = min ((oh : ℚ) / (ih : ℚ)) ((ow : ℚ) / (iw : ℚ)) ∧
      pre.padW = ((ow : ℚ) - (pyRound ((iw : ℚ) * pre.r) : ℚ)) / 2 ∧
      pre.padH = ((oh : ℚ) - (pyRound ((ih : ℚ) * pre.r) : ℚ)) / 2 ∧
      pre.top = pyRound (pre.padH - 1 / 10) ∧
      pre.bottom = pyRound (pre.padH + 1 / 10) ∧
      pre.left = pyRound (pre.padW - 1 / 10) ∧
      pre.right = pyRound (pre.padW + 1 / 10) ∧
      pre.color = (114, 114, 114) ∧
      pre.blobShape = (1, 3, (oh : ℤ), (ow : ℤ)) := by
  have hguard : ¬(letterboxNeedResize ih iw oh ow ∧
      (letterboxRW ih iw oh ow ≤ 0 ∨ letterboxRH ih iw oh ow ≤ 0)) := by
    rintro ⟨-, h | h⟩
    · exact absurd h (not_le.mpr hrw)
    · exact absurd h (not_le.mpr hrh)
  refine ⟨preprocessRaw resizeImg ih iw px oh ow, ?_, rfl, rfl, rfl, rfl, rfl, rfl, rfl, rfl, ?_⟩
  · simp only [preprocess, if_neg hguard]
  · show (1, 3,
        pyRound (letterboxPadH ih iw oh ow - 1 / 10) +
          (if letterboxNeedResize ih iw oh ow then letterboxRH ih iw oh ow else (ih : ℤ)) +
          pyRound (letterboxPadH ih iw oh ow + 1 / 10),
        pyRound (letterboxPadW ih iw oh ow - 1 / 10) +
          (if letterboxNeedResize ih iw oh ow then letterboxRW ih iw oh ow else (iw : ℤ)) +
          pyRound (letterboxPadW ih iw oh ow + 1 / 10)) = ((1 : ℕ), (3 : ℕ), (oh : ℤ), (ow : ℤ))
    simp only [Prod.mk.injEq, true_and]
    exact ⟨letterbox_height_total ih iw oh ow, letterbox_width_total ih iw oh ow⟩

/-- C4 witness: a 2x2 image into a 4x4 model satisfies all hypotheses. -/
theorem preprocess_letterbox_spec_witness :
    ∃ pre : PreOut,
      preprocess (fun _ _ f _ _ => f) 2 2 (fun _ _ _ => 0) 4 4 = some pre ∧
      pre.r = min ((4 : ℚ) / (2 : ℚ)) ((4 : ℚ) / (2 : ℚ)) ∧
      pre.padW = ((4 : ℚ) - (pyRound ((2 : ℚ) * pre.r) : ℚ)) / 2 ∧
      pre.padH = ((4 : ℚ) - (pyRound ((2 : ℚ) * pre.r) : ℚ)) / 2 ∧
      pre.top = pyRound (pre.padH - 1 / 10) ∧
      pre.bottom = pyRound (pre.padH + 1 / 10) ∧
      pre.left = pyRound (pre.padW - 1 / 10) ∧
      pre.right = pyRound (pre.padW + 1 / 10) ∧
      pre.color = (114, 114, 114) ∧
      pre.blobShape = (1, 3, (4 : ℤ), (4 : ℤ)) := by
  have h := preprocess_letterbox_spec (fun _ _ f _ _ => f) (fun _ _ _ => 0) 2 2 4 4
    (by norm_num) (by norm_num) (by norm_num) (by norm_num)
    (by norm_num [letterboxRW, letterboxR, pyRound])
    (by norm_num [letterboxRH, letterboxR, pyRound])
  simpa using h

/-- C6: an image whose size already equals the model input size gets
`r = 1`, `padW = padH = 0`, and the external resize capability is not invoked. -/
theorem preprocess_identity_roundtrip (resizeImg : ResizeImgCap) (px : Pix)
    (n m : ℕ) (hn : 0 < n) (hm : 0 < m) :
    ∃ pre : PreOut,
      preprocess resizeImg n m px n m = some pre ∧
      pre.r = 1 ∧ pre.padW = 0 ∧ pre.padH = 0 ∧ pre.resized = false := by
  have hnq : ((n : ℚ)) ≠ 0 := by exact_mod_cast hn.ne'
  have hmq : ((m : ℚ)) ≠ 0 := by exact_mod_cast hm.ne'
  have hrq : letterboxR n m n m = 1 := by
    unfold letterboxR
    rw [div_self hnq, div_self hmq, min_self]
  have hrw : letterboxRW n m n m = (m : ℤ) := by
    unfold letterboxRW
    rw [hrq, mul_one]
    have h := pyRound_intCast (m : ℤ)
    simpa using h
  have hrh : letterboxRH n m n m = (n : ℤ) := by
    unfold letterboxRH
    rw [hrq, mul_one]
    have h := pyRound_intCast (n : ℤ)
    simpa using h
  have hnr : ¬ letterboxNeedResize n m n m := by
    unfold letterboxNeedResize
    rw [hrw, hrh]
    simp
  have hguard : ¬(letterboxNeedResize n m n m ∧
      (letterboxRW n m n m ≤ 0 ∨ letterboxRH n m n m ≤ 0)) := fun h => hnr h.1
  refine ⟨preprocessRaw resizeImg n m px n m, ?_, hrq, ?_, ?_, ?_⟩
  · simp only [preprocess, if_neg hguard]
  · show letterboxPadW n m n m = 0
    unfold letterboxPadW
    rw [hrw]
    push_cast
    ring
  · show letterboxPadH n m n m = 0
    unfold letterboxPadH
    rw [hrh]
    push_cast
    ring
  · exact decide_eq_false hnr

/-- C6 witness: a 7x5 image into a 7x5 model. -/
theorem preprocess_identity_roundtrip_witness :
    ∃ pre : PreOut,
      preprocess (fun _ _ f _ _ => f) 7 5 (fun _ _ _ => 0) 7 5 = some pre ∧
      pre.r = 1 ∧ pre.padW = 0 ∧ pre.padH = 0 ∧ pre.resized = false :=
  preprocess_identity_roundtrip (fun _ _ f _ _ => f) (fun _ _ _ => 0) 7 5
    (by norm_num) (by norm_num)

/-- C4 counterexample: a 1281x1 image into a 640x640 model has
`rw = round(1 * min(640/1281, 640/1)) = round(640/1281) = 0`, so the resize
step's `assert w > 0` fails and `preprocess` raises instead of returning a
`(1, 3, oh, ow)` blob. -/
theorem preprocess_letterbox_counterexample :
    preprocess (fun _ _ f _ _ => f) 1281 1 (fun _ _ _ => 0) 640 640 = none := by
  have hrw : letterboxRW 1281 1 640 640 = 0 := by
    norm_num [letterboxRW, letterboxR, pyRound]
  have hneed : letterboxNeedResize 1281 1 640 640 := by
    simp [letterboxNeedResize, hrw]
  simp only [preprocess]
  rw [if_pos ⟨hneed, Or.inl (le_of_eq hrw)⟩]

/-! ## Box rescaling (`SegModel.postprocess_boxes`) -/

/-- One row of a boxes array: the four numpy columns `[0], [1], [2], [3]`
(center form `(cx, cy, w, h)` before rescaling, corner form `(x1, y1, x2, y2)`
after). -/
structure B4 where
  c0 : ℚ
  c1 : ℚ
  c2 : ℚ
  c3 : ℚ
deriving DecidableEq

/-- `np.clip(v, lo, hi)`. -/
def clipQ (v lo hi : ℚ) : ℚ := min (max v lo) hi

/-- One row of `SegModel.postprocess_boxes`: center-size to corner form
(`x[:, [0,1]] -= x[:, [2,3]]/2`; `x[:, [2,3]] += x[:, [0,1]]`), pad subtraction,
division by the scale ratio, and clipping of `x` to `[0, iw]`, `y` to `[0, ih]`. -/
def processBox (b : B4) (ratio padW padH : ℚ) (ih iw : ℕ) : B4 :=
  let x1 := b.c0 - b.c2 / 2
  let y1 := b.c1 - b.c3 / 2
  let x2 := b.c2 + x1
  let y2 := b.c3 + y1
  { c0 := clipQ ((x1 - padW) / ratio) 0 (iw : ℚ)
    c1 := clipQ ((y1 - padH) / ratio) 0 (ih : ℚ)
    c2 := clipQ ((x2 - padW) / ratio) 0 (iw : ℚ)
    c3 := clipQ ((y2 - padH) / ratio) 0 (ih : ℚ) }

/-- `SegModel.postprocess_boxes` on an array of `n` rows (rows are independent). -/
def postprocessBoxes (boxes : ℕ → B4) (ratio padW padH : ℚ) (ih iw : ℕ) : ℕ → B4 :=
  fun j => processBox (boxes j) ratio padW padH ih iw

theorem clipQ_nonneg (v hi : ℚ) (h : 0 ≤ hi) : 0 ≤ clipQ v 0 hi :=
  le_min (le_max_right v 0) h

theorem clipQ_le_hi (v lo hi : ℚ) : clipQ v lo hi ≤ hi :=
  min_le_right _ _

theorem clipQ_mono (a b lo hi : ℚ) (h : a ≤ b) : clipQ a lo hi ≤ clipQ b lo hi :=
  min_le_min (max_le_max h le_rfl) le_rfl

/-- Core of C3: with a positive scale ratio and nonnegative raw width/height,
the rescaled box satisfies `0 ≤ x1 ≤ x2 ≤ iw` and `0 ≤ y1 ≤ y2 ≤ ih`. -/
theorem processBox_ordered (b : B4) (ratio padW padH : ℚ) (ih iw : ℕ)
    (hr : 0 < ratio) (hw : 0 ≤ b.c2) (hh : 0 ≤ b.c3) :
    0 ≤ (processBox b ratio padW padH ih iw).c0 ∧
    (processBox b ratio padW padH ih iw).c0 ≤ (processBox b ratio padW padH ih iw).c2 ∧
    (processBox b ratio padW padH ih iw).c2 ≤ (iw : ℚ) ∧
    0 ≤ (processBox b ratio padW padH ih iw).c1 ∧
    (processBox b ratio padW padH ih iw).c1 ≤ (processBox b ratio padW padH ih iw).c3 ∧
    (processBox b ratio padW padH ih iw).c3 ≤ (ih : ℚ) := by
  have hiw0 : (0 : ℚ) ≤ (iw : ℚ) := by positivity
  have hih0 : (0 : ℚ) ≤ (ih : ℚ) := by positivity
  have hx : (b.c0 - b.c2 / 2 - padW) / ratio ≤ (b.c2 + (b.c0 - b.c2 / 2) - padW) / ratio := by
    apply div_le_div_of_nonneg_right ?_ hr.le
    linarith
  have hy : (b.c1 - b.c3 / 2 - padH) / ratio ≤ (b.c3 + (b.c1 - b.c3 / 2) - padH) / ratio := by
    apply div_le_div_of_nonneg_right ?_ hr.le
    linarith
  exact ⟨clipQ_nonneg _ _ hiw0, clipQ_mono _ _ _ _ hx, clipQ_le_hi _ _ _,
    clipQ_nonneg _ _ hih0, clipQ_mono _ _ _ _ hy, clipQ_le_hi _ _ _⟩

/-! ## Mask reconstruction (`SegModel.postprocess_masks`) -/

/-- A 2D float array accessor (row, column). -/
def Mask2 := ℕ → ℕ → ℚ

/-- External per-mask resize capability (`resize(mask, (iw, ih))`, PIL Lanczos
on a float array): source height/width, source accessor, target height/width. -/
def ResizeMaskCap := ℕ → ℕ → Mask2 → ℕ → ℕ → Mask2

/-- Modelled from the spec: `common.sigmoid` (module `microwink/common.py` is
not among the sources).  Spec §4.6 step 4: "apply the logistic sigmoid function
elementwise to produce values in the open interval (0,1)". -/
noncomputable def sigmoid (t : ℝ) : ℝ := 1 / (1 + Real.exp (-t))

theorem sigmoid_pos (t : ℝ) : 0 < sigmoid t := by
  unfold sigmoid
  positivity

theorem sigmoid_lt_one (t : ℝ) : sigmoid t < 1 := by
  unfold sigmoid
  rw [div_lt_one (by positivity)]
  have h := Real.exp_pos (-t)
  linarith

theorem sigmoid_zero : sigmoid 0 = 1 / 2 := by
  unfold sigmoid
  rw [neg_zero, Real.exp_zero]
  norm_num

/-- The `np.matmul(masks_in, protos.reshape((nm, -1))).reshape((N, mh, mw))`
step, for one candidate: the linear combination of prototype masks. -/
def rawMask (protos : ℕ → ℕ → ℕ → ℚ) (nm : ℕ) (coefs : ℕ → ℚ) : Mask2 :=
  fun y x => ∑ k ∈ Finset.range nm, coefs k * protos k y x

/-- `SegModel._scale_masks` for one mask: crop the letterbox padding off the
`(mh, mw)` grid using the grid's own gain/pad and the `EPS = 0.1` rounding,
then resize the remainder to `(ih, iw)` via the external capability. -/
def scaleOne (resizeMask : ResizeMaskCap) (mh mw ih iw : ℕ) (m : Mask2) : Mask2 :=
  let gain := min ((mh : ℚ) / (ih : ℚ)) ((mw : ℚ) / (iw : ℚ))
  let padW := ((mw : ℚ) - (iw : ℚ) * gain) / 2
  let padH := ((mh : ℚ) - (ih : ℚ) * gain) / 2
  let top := pyRound (padH - 1 / 10)
  let bottom := pyRound ((mh : ℚ) - padH + 1 / 10)
  let left := pyRound (padW - 1 / 10)
  let right := pyRound ((mw : ℚ) - padW + 1 / 10)
  let sliced : Mask2 := fun y x => m (y + top.toNat) (x + left.toNat)
  resizeMask (bottom - top).toNat (right - left).toNat sliced ih iw

/-- `SegModel._crop_masks` for one mask: multiply by the box-membership
indicator `(r >= x1) * (r < x2) * (c >= y1) * (c < y2)` where `r` is the
column index and `c` the row index. -/
def cropOne (b : B4) (m : Mask2) : Mask2 :=
  fun y x =>
    m y x *
      (if b.c0 ≤ (x : ℚ) ∧ (x : ℚ) < b.c2 ∧ b.c1 ≤ (y : ℚ) ∧ (y : ℚ) < b.c3 then 1 else 0)

/-- `SegModel.postprocess_masks` for one retained candidate: prototype linear
combination, letterbox-inverting rescale to `(ih, iw)`, crop to the candidate's
(already rescaled) box, then the sigmoid activation — in that order
(`common.sigmoid(self._crop_masks(masks, boxes))`). -/
noncomputable def maskOne (resizeMask : ResizeMaskCap) (protos : ℕ → ℕ → ℕ → ℚ)
    (nm : ℕ) (coefs : ℕ → ℚ) (b : B4) (ih iw : ℕ) : ℕ → ℕ → ℝ :=
  fun y x =>
    sigmoid ((cropOne b (scaleOne resizeMask 160 160 ih iw (rawMask protos nm coefs)) y x : ℚ) : ℝ)

/-! ## Non-maximum suppression -/

/-- External NMS capability (`cv2.dnn.NMSBoxes`): candidate count, boxes,
scores, confidence and IoU thresholds; returns the retained indices. -/
def NmsCap := ℕ → (ℕ → B4) → (ℕ → ℚ) → ℚ → ℚ → List ℕ

/-- IoU of two `(x, y, w, h)` rectangles (spec glossary: overlap over union). -/
def iouQ (a b : B4) : ℚ :=
  let interW := max 0 (min (a.c0 + a.c2) (b.c0 + b.c2) - max a.c0 b.c0)
  let interH := max 0 (min (a.c1 + a.c3) (b.c1 + b.c3) - max a.c1 b.c1)
  let inter := interW * interH
  inter / (a.c2 * a.c3 + b.c2 * b.c3 - inter)

/-- Modelled from the spec: greedy suppression (§4.4) — repeatedly retain the
best remaining candidate and discard the rest whose IoU with it exceeds the
threshold.  Stands in for the external `cv2.dnn.NMSBoxes` capability. -/
def greedyNms (boxes : ℕ → B4) (iouTh : ℚ) : List ℕ → List ℕ
  | [] => []
  | i :: rest =>
    i :: greedyNms boxes iouTh (rest.filter (fun j => iouQ (boxes i) (boxes j) ≤ iouTh))
termination_by l => l.length
decreasing_by
  exact Nat.lt_succ_of_le (List.length_filter_le _ _)

/-- Modelled from the spec: the full NMS contract of §4.4 — drop candidates at
or below the confidence threshold, sort by descending score (stable, ties by
lower original index first), then greedily suppress by IoU. -/
def specNms (n : ℕ) (boxes : ℕ → B4) (scores : ℕ → ℚ) (confTh iouTh : ℚ) : List ℕ :=
  let cands := (List.range n).filter (fun i => confTh < scores i)
  let order := cands.mergeSort (fun a b => scores b ≤ scores a)
  greedyNms boxes iouTh order

theorem mem_greedyNms (boxes : ℕ → B4) (iouTh : ℚ) :
    ∀ (fuel : ℕ) (l : List ℕ), l.length ≤ fuel →
      ∀ k ∈ greedyNms boxes iouTh l, k ∈ l := by
  intro fuel
  induction fuel with
  | zero =>
    intro l hl k hk
    have hnil : l = [] := List.eq_nil_of_length_eq_zero (Nat.le_zero.mp hl)
    subst hnil
    simp only [greedyNms] at hk
    exact absurd hk (List.not_mem_nil k)
  | succ m ih =>
    intro l hl k hk
    cases l with
    | nil =>
      simp only [greedyNms] at hk
      exact absurd hk (List.not_mem_nil k)
    | cons i rest =>
      simp only [greedyNms] at hk
      rcases List.mem_cons.mp hk with h | h
      · exact h ▸ List.mem_cons_self _ _
      · have hlen : (rest.filter (fun j => iouQ (boxes i) (boxes j) ≤ iouTh)).length ≤ m :=
          le_trans (List.length_filter_le _ _) (Nat.succ_le_succ_iff.mp hl)
        have hmem := ih _ hlen k h
        exact List.mem_cons_of_mem _ (List.mem_filter.mp hmem).1

/-- The spec-modelled NMS only returns indices below the candidate count. -/
theorem specNms_valid (n : ℕ) (boxes : ℕ → B4) (scores : ℕ → ℚ) (confTh iouTh : ℚ) :
    ∀ k ∈ specNms n boxes scores confTh iouTh, k < n := by
  intro k hk
  unfold specNms at hk
  have h1 := mem_greedyNms boxes iouTh _ _ le_rfl k hk
  have h2 := (List.mem_mergeSort).mp h1
  exact List.mem_range.mp (List.mem_filter.mp h2).1

/-! ## Candidate decoding and postprocessing (`SegModel.postprocess`) -/

/-- Output of the inference engine on one blob: the detection tensor
`preds[0][0]` in channel-major `(C, A)` layout together with the candidate
count `A`, and the prototype tensor `preds[1][0]` of shape `(nm, 160, 160)`. -/
structure EngineOut where
  A : ℕ
  det : ℕ → ℕ → ℚ
  protos : ℕ → ℕ → ℕ → ℚ

/-- The external inference engine, consumed as a pure function (spec §4.2). -/
def Engine := (ℕ → ℕ → ℕ → ℚ) → EngineOut

/-- `x = x[0].T`: candidate-major accessor of the detection tensor. -/
def xT (det : ℕ → ℕ → ℚ) (i c : ℕ) : ℚ := det c i

/-- `likely = x[:, 4:5].max(axis=1) > conf_threshold; x = x[likely]`: the
surviving row indices, in order (`NUM_CLASSES = 1`, so the max over the class
slice is column 4). -/
def likelyIdx (A : ℕ) (det : ℕ → ℕ → ℚ) (confTh : ℚ) : List ℕ :=
  (List.range A).filter (fun i => confTh < xT det i 4)

/-- Row `j` of the filtered tensor `x[likely]`. -/
def candAt (A : ℕ) (det : ℕ → ℕ → ℚ) (confTh : ℚ) (j : ℕ) : ℕ :=
  (likelyIdx A det confTh).getD j 0

/-- `boxes = x[:, :4]` of the filtered tensor (center-size form). -/
def boxesCF (A : ℕ) (det : ℕ → ℕ → ℚ) (confTh : ℚ) (j : ℕ) : B4 :=
  { c0 := xT det (candAt A det confTh j) 0
    c1 := xT det (candAt A det confTh j) 1
    c2 := xT det (candAt A det confTh j) 2
    c3 := xT det (candAt A det confTh j) 3 }

/-- `scores = x[:, 4:5].max(axis=1)` of the filtered tensor. -/
def scoresF (A : ℕ) (det : ℕ → ℕ → ℚ) (confTh : ℚ) (j : ℕ) : ℚ :=
  xT det (candAt A det confTh j) 4

/-- `keep = self.nms(boxes, scores, ...)`. -/
def keepF (nmsCap : NmsCap) (A : ℕ) (det : ℕ → ℕ → ℚ) (confTh iouTh : ℚ) : List ℕ :=
  nmsCap (likelyIdx A det confTh).length (boxesCF A det confTh) (scoresF A det confTh)
    confTh iouTh

/-- The arrays bundled into `RawResult` by `SegModel.postprocess`. -/
structure RawResult where
  n : ℕ
  boxes : ℕ → B4
  scores : ℕ → ℚ
  classIds : ℕ → ℕ
  masks : ℕ → ℕ → ℕ → ℝ

/-- `SegModel.postprocess` instrumented with which later stages ran. -/
structure PostOut where
  result : Option RawResult
  nmsInvoked : Bool
  maskInvoked : Bool

/-- The `RawResult` built by `SegModel.postprocess` when `keep` is nonempty:
`class_ids = argmax` over the single class column (hence `0`), keep-indexed
scores and boxes, boxes rescaled by `postprocess_boxes`, and masks built by
`postprocess_masks` from the keep-indexed coefficients (`x[:, 5:]`) and the
rescaled boxes. -/
noncomputable def postprocessRaw (nmsCap : NmsCap) (resizeMask : ResizeMaskCap)
    (eo : EngineOut) (ih iw : ℕ) (ratio padW padH confTh iouTh : ℚ) (nm : ℕ) :
    RawResult :=
  let keep := keepF nmsCap eo.A eo.det confTh iouTh
  let sel := fun j => keep.getD j 0
  let boxesR := postprocessBoxes (fun j => boxesCF eo.A eo.det confTh (sel j))
    ratio padW padH ih iw
  { n := keep.length
    boxes := boxesR
    scores := fun j => scoresF eo.A eo.det confTh (sel j)
    classIds := fun _ => 0
    masks := fun j =>
      maskOne resizeMask eo.protos nm
        (fun k => xT eo.det (candAt eo.A eo.det confTh (sel j)) (5 + k))
        (boxesR j) ih iw }

/-- `SegModel.postprocess`: confidence filter, NMS (invoked unconditionally),
the `N == 0` short-circuit returning `None`, and otherwise box rescaling and
mask reconstruction. -/
noncomputable def postprocess (nmsCap : NmsCap) (resizeMask : ResizeMaskCap)
    (eo : EngineOut) (ih iw : ℕ) (ratio padW padH confTh iouTh : ℚ) (nm : ℕ) :
    PostOut :=
  if keepF nmsCap eo.A eo.det confTh iouTh = [] then
    { result := none, nmsInvoked := true, maskInvoked := false }
  else
    { result := some (postprocessRaw nmsCap resizeMask eo ih iw ratio padW padH confTh iouTh nm)
      nmsInvoked := true
      maskInvoked := true }

/-! ## The public operation (`SegModel.apply`) -/

/-- Error outcomes of `apply` (Python-side assertion failures; the RGB mode
assertion is the spec's `InvalidImage`). -/
inductive Err where
  | invalidImage
  | assertionFailed
deriving DecidableEq

/-- Modelled from the spec: `common.Box` (§3) — four floats in corner form;
`Box.from_xyxy` reads them off a 4-vector row (`microwink/common.py` is not
among the sources). -/
structure Box where
  x1 : ℚ
  y1 : ℚ
  x2 : ℚ
  y2 : ℚ
deriving DecidableEq

/-- `common.Box.from_xyxy(raw_box)`. -/
def Box.fromXyxy (b : B4) : Box :=
  { x1 := b.c0, y1 := b.c1, x2 := b.c2, y2 := b.c3 }

/-- `SegResult`: box, score and heat-map mask for one detection. -/
structure SegResult where
  box : Box
  score : ℚ
  mask : ℕ → ℕ → ℝ

noncomputable instance : Inhabited SegResult :=
  ⟨{ box := { x1 := 0, y1 := 0, x2 := 0, y2 := 0 }, score := 0, mask := fun _ _ => 0 }⟩

/-- The per-result assertions of the `apply` loop:
`assert class_id == CLASS_ID` and `assert 0.0 <= score <= 1.0`. -/
def checkAsserts (raw : RawResult) : Bool :=
  (List.range raw.n).all
    (fun j => decide (raw.classIds j = 0) && decide (0 ≤ raw.scores j ∧ raw.scores j ≤ 1))

/-- The result list built by the `apply` loop over
`zip(raw.scores, raw.boxes, raw.masks, raw.class_ids)`. -/
noncomputable def mkResults (raw : RawResult) : List SegResult :=
  (List.range raw.n).map
    (fun j => { box := Box.fromXyxy (raw.boxes j), score := raw.scores j, mask := raw.masks j })

/-- `SegModel.apply`, instrumented with which stages ran. -/
structure ApplyOut where
  result : Except Err (List SegResult)
  preprocessInvoked : Bool
  engineInvoked : Bool
  nmsInvoked : Bool
  maskInvoked : Bool

/-- `SegModel.apply`: `assert image.mode == "RGB"` first, then `_run`
(preprocess, inference, postprocess with `NM = 32`), then the result loop with
its class-id and score-range assertions.  `None` from postprocess yields `[]`. -/
noncomputable def apply (resizeImg : ResizeImgCap) (resizeMask : ResizeMaskCap)
    (nmsCap : NmsCap) (engine : Engine) (oh ow : ℕ) (img : Img) (thr : Threshold) :
    ApplyOut :=
  if img.mode = "RGB" then
    match preprocess resizeImg img.h img.w img.px oh ow with
    | none =>
      { result := .error .assertionFailed, preprocessInvoked := true
        engineInvoked := false, nmsInvoked := false, maskInvoked := false }
    | some pre =>
      match (postprocess nmsCap resizeMask (engine pre.blob) img.h img.w
          pre.r pre.padW pre.padH thr.confidence thr.iou 32).result with
      | none =>
        { result := .ok [], preprocessInvoked := true, engineInvoked := true
          nmsInvoked := (postprocess nmsCap resizeMask (engine pre.blob) img.h img.w
            pre.r pre.padW pre.padH thr.confidence thr.iou 32).nmsInvoked
          maskInvoked := (postprocess nmsCap resizeMask (engine pre.blob) img.h img.w
            pre.r pre.padW pre.padH thr.confidence thr.iou 32).maskInvoked }
      | some raw =>
        if checkAsserts raw then
          { result := .ok (mkResults raw), preprocessInvoked := true, engineInvoked := true
            nmsInvoked := (postprocess nmsCap resizeMask (engine pre.blob) img.h img.w
              pre.r pre.padW pre.padH thr.confidence thr.iou 32).nmsInvoked
            maskInvoked := (postprocess nmsCap resizeMask (engine pre.blob) img.h img.w
              pre.r pre.padW pre.padH thr.confidence thr.iou 32).maskInvoked }
        else
          { result := .error .assertionFailed, preprocessInvoked := true, engineInvoked := true
            nmsInvoked := (postprocess nmsCap resizeMask (engine pre.blob) img.h img.w
              pre.r pre.padW pre.padH thr.confidence thr.iou 32).nmsInvoked
            maskInvoked := (postprocess nmsCap resizeMask (engine pre.blob) img.h img.w
              pre.r pre.padW pre.padH thr.confidence thr.iou 32).maskInvoked }
  else
    { result := .error .invalidImage, preprocessInvoked := false
      engineInvoked := false, nmsInvoked := false, maskInvoked := false }

/-! ## Shared inversion lemmas -/

theorem postprocess_result_some (nmsCap : NmsCap) (resizeMask : ResizeMaskCap)
    (eo : EngineOut) (ih iw : ℕ) (ratio padW padH confTh iouTh : ℚ) (nm : ℕ)
    (raw : RawResult)
    (h : (postprocess nmsCap resizeMask eo ih iw ratio padW padH confTh iouTh nm).result
      = some raw) :
    raw = postprocessRaw nmsCap resizeMask eo ih iw ratio padW padH confTh iouTh nm := by
  unfold postprocess at h
  split at h
  · simp at h
  · simp only [Option.some.injEq] at h
    exact h.symm

theorem apply_ok_inv (resizeImg : ResizeImgCap) (resizeMask : ResizeMaskCap)
    (nmsCap : NmsCap) (engine : Engine) (oh ow : ℕ) (img : Img) (thr : Threshold)
    (rs : List SegResult)
    (hok : (apply resizeImg resizeMask nmsCap engine oh ow img thr).result = .ok rs) :
    rs = [] ∨
      ∃ pre : PreOut,
        preprocess resizeImg img.h img.w img.px oh ow = some pre ∧
        rs = mkResults (postprocessRaw nmsCap resizeMask (engine pre.blob) img.h img.w
          pre.r pre.padW pre.padH thr.confidence thr.iou 32) := by
  unfold apply at hok
  split at hok
  · split at hok
    · simp at hok
    · rename_i pre hpre
      split at hok
      · left
        simp only [Except.ok.injEq] at hok
        exact hok.symm
      · rename_i raw hpo
        split at hok
        · right
          refine ⟨pre, hpre, ?_⟩
          have hr := postprocess_result_some nmsCap resizeMask (engine pre.blob)
            img.h img.w pre.r pre.padW pre.padH thr.confidence thr.iou 32 raw hpo
          simp only [Except.ok.injEq] at hok
          rw [← hok, hr]
        · simp at hok
  · simp at hok

/-- Every index of the confidence-filtered tensor has score strictly above the
threshold (the filter is strict). -/
theorem scoresF_gt_conf (A : ℕ) (det : ℕ → ℕ → ℚ) (confTh : ℚ) (j : ℕ)
    (hj : j < (likelyIdx A det confTh).length) :
    confTh < scoresF A det confTh j := by
  have hmem : (likelyIdx A det confTh).getD j 0 ∈ likelyIdx A det confTh := by
    rw [List.getD_eq_getElem _ _ hj]
    exact List.getElem_mem _
  unfold likelyIdx at hmem
  have h := List.mem_filter.mp hmem
  have h2 : confTh < xT det ((likelyIdx A det confTh).getD j 0) 4 := by
    simpa using h.2
  exact h2

/-- C5: every `SegResult` returned by `apply` has score strictly greater than
`threshold.confidence` (candidates at or below the threshold are never
returned), which in particular implies `score ≥ threshold.confidence`.  The
NMS capability is assumed to return valid indices (the `cv2.dnn.NMSBoxes`
contract). -/
theorem apply_score_gt_confidence (resizeImg : ResizeImgCap) (resizeMask : ResizeMaskCap)
    (nmsCap : NmsCap) (engine : Engine) (oh ow : ℕ) (img : Img) (thr : Threshold)
    (hnms : ∀ (n : ℕ) (b : ℕ → B4) (s : ℕ → ℚ) (c i : ℚ), ∀ k ∈ nmsCap n b s c i, k < n)
    (rs : List SegResult)
    (hok : (apply resizeImg resizeMask nmsCap engine oh ow img thr).result = .ok rs) :
    ∀ res ∈ rs, thr.confidence < res.score ∧ thr.confidence ≤ res.score := by
  intro res hres
  rcases apply_ok_inv resizeImg resizeMask nmsCap engine oh ow img thr rs hok with
    hnil | ⟨pre, hpre, hrs⟩
  · subst hnil
    exact absurd hres (List.not_mem_nil res)
  · subst hrs
    unfold mkResults at hres
    rcases List.mem_map.mp hres with ⟨j, hj, hres_eq⟩
    have hjlt : j <
        (keepF nmsCap (engine pre.blob).A (engine pre.blob).det thr.confidence thr.iou).length := by
      simpa [postprocessRaw] using List.mem_range.mp hj
    have hkmem :
        (keepF nmsCap (engine pre.blob).A (engine pre.blob).det thr.confidence thr.iou).getD j 0
          ∈ keepF nmsCap (engine pre.blob).A (engine pre.blob).det thr.confidence thr.iou := by
      rw [List.getD_eq_getElem _ _ hjlt]
      exact List.getElem_mem _
    have hklt := hnms _ _ _ _ _ _ hkmem
    have hscore := scoresF_gt_conf (engine pre.blob).A (engine pre.blob).det thr.confidence _ hklt
    have hsc : res.score = scoresF (engine pre.blob).A (engine pre.blob).det thr.confidence
        ((keepF nmsCap (engine pre.blob).A (engine pre.blob).det thr.confidence thr.iou).getD j 0) := by
      rw [← hres_eq]
      rfl
    rw [hsc]
    exact ⟨hscore, le_of_lt hscore⟩

/-! ## A concrete pipeline run (10x10 RGB image, 10x10 model, one strong
candidate `(cx, cy, w, h) = (5, 5, 4, 2)` with confidence 0.9) used by the
witnesses and counterexamples. -/

def cPx : Pix := fun _ _ _ => 0

def cImg : Img := { h := 10, w := 10, mode := "RGB", px := cPx }

def cResizeImg : ResizeImgCap := fun _ _ f _ _ => f

def cResizeMask : ResizeMaskCap := fun _ _ f _ _ => f

def cDet : ℕ → ℕ → ℚ := fun c _ => [(5 : ℚ), 5, 4, 2, 9 / 10].getD c 0

def cEO : EngineOut := { A := 1, det := cDet, protos := fun _ _ _ => 0 }

def cEngine : Engine := fun _ => cEO

def cThr : Threshold := {}

theorem cRW : letterboxRW 10 10 10 10 = 10 := by
  norm_num [letterboxRW, letterboxR, pyRound]

theorem cRH : letterboxRH 10 10 10 10 = 10 := by
  norm_num [letterboxRH, letterboxR, pyRound]

theorem cNoResize : ¬ letterboxNeedResize 10 10 10 10 := by
  simp [letterboxNeedResize, cRW, cRH]

theorem cPre_some :
    preprocess cResizeImg 10 10 cPx 10 10 = some (preprocessRaw cResizeImg 10 10 cPx 10 10) := by
  unfold preprocess
  exact if_neg (fun h => cNoResize h.1)

theorem cLikely : likelyIdx 1 cDet (3 / 5) = [0] := by
  show List.filter _ (List.range 1) = [0]
  rw [show List.range 1 = [0] from rfl, List.filter_cons, List.filter_nil]
  have hx : xT cDet 0 4 = 9 / 10 := rfl
  simp only [hx]
  norm_num

theorem cScore : scoresF 1 cDet (3 / 5) 0 = 9 / 10 := by
  unfold scoresF candAt
  rw [cLikely]
  rfl

theorem cKeep : keepF specNms 1 cDet (3 / 5) (1 / 2) = [0] := by
  unfold keepF specNms
  rw [cLikely]
  rw [show ([0] : List ℕ).length = 1 from rfl, show List.range 1 = [0] from rfl,
    List.filter_cons, List.filter_nil]
  rw [cScore]
  norm_num [greedyNms]

theorem cChecks (ratio padW padH : ℚ) :
    checkAsserts (postprocessRaw specNms cResizeMask cEO 10 10 ratio padW padH
      (3 / 5) (1 / 2) 32) = true := by
  unfold checkAsserts postprocessRaw
  simp only [cEO]
  rw [cKeep, show ([0] : List ℕ).length = 1 from rfl, show List.range 1 = [0] from rfl,
    List.all_cons, List.all_nil]
  simp only [List.getD_cons_zero, cScore]
  norm_num

theorem cKeepEO : keepF specNms cEO.A cEO.det (3 / 5) (1 / 2) = [0] := cKeep

theorem cApply_result :
    (apply cResizeImg cResizeMask specNms cEngine 10 10 cImg cThr).result =
      .ok (mkResults (postprocessRaw specNms cResizeMask cEO 10 10
        (preprocessRaw cResizeImg 10 10 cPx 10 10).r
        (preprocessRaw cResizeImg 10 10 cPx 10 10).padW
        (preprocessRaw cResizeImg 10 10 cPx 10 10).padH (3 / 5) (1 / 2) 32)) := by
  unfold apply
  simp only [cImg, cPre_some, cEngine, cThr]
  simp only [if_true]
  simp only [postprocess]
  rw [cKeepEO]
  rw [if_neg (by simp : ¬([0] : List ℕ) = [])]
  simp only [cChecks]
  simp only [if_true]

/-- C5 witness: the concrete run returns one result and its score `9/10` is
strictly above the default confidence threshold `3/5`. -/
theorem apply_score_gt_confidence_witness :
    cThr.confidence < ((mkResults (postprocessRaw specNms cResizeMask cEO 10 10
        (preprocessRaw cResizeImg 10 10 cPx 10 10).r
        (preprocessRaw cResizeImg 10 10 cPx 10 10).padW
        (preprocessRaw cResizeImg 10 10 cPx 10 10).padH (3 / 5) (1 / 2) 32)).getD 0
          default).score ∧
      cThr.confidence ≤ ((mkResults (postprocessRaw specNms cResizeMask cEO 10 10
        (preprocessRaw cResizeImg 10 10 cPx 10 10).r
        (preprocessRaw cResizeImg 10 10 cPx 10 10).padW
        (preprocessRaw cResizeImg 10 10 cPx 10 10).padH (3 / 5) (1 / 2) 32)).getD 0
          default).score := by
  have hlen : (mkResults (postprocessRaw specNms cResizeMask cEO 10 10
      (preprocessRaw cResizeImg 10 10 cPx 10 10).r
      (preprocessRaw cResizeImg 10 10 cPx 10 10).padW
      (preprocessRaw cResizeImg 10 10 cPx 10 10).padH (3 / 5) (1 / 2) 32)).length = 1 := by
    simp only [mkResults, List.length_map, List.length_range, postprocessRaw, cEO]
    rw [cKeep]
    rfl
  have hmem : (mkResults (postprocessRaw specNms cResizeMask cEO 10 10
      (preprocessRaw cResizeImg 10 10 cPx 10 10).r
      (preprocessRaw cResizeImg 10 10 cPx 10 10).padW
      (preprocessRaw cResizeImg 10 10 cPx 10 10).padH (3 / 5) (1 / 2) 32)).getD 0 default
        ∈ mkResults (postprocessRaw specNms cResizeMask cEO 10 10
      (preprocessRaw cResizeImg 10 10 cPx 10 10).r
      (preprocessRaw cResizeImg 10 10 cPx 10 10).padW
      (preprocessRaw cResizeImg 10 10 cPx 10 10).padH (3 / 5) (1 / 2) 32) := by
    rw [List.getD_eq_getElem _ _ (by rw [hlen]; norm_num)]
    exact List.getElem_mem _
  exact apply_score_gt_confidence cResizeImg cResizeMask specNms cEngine 10 10 cImg cThr
    (fun n b s c i => specNms_valid n b s c i) _ cApply_result _ hmem

/-- C8: a non-RGB image fails with `InvalidImage` (the mode assertion), and
neither preprocessing nor inference nor any later stage is invoked. -/
theorem apply_invalid_image (resizeImg : ResizeImgCap) (resizeMask : ResizeMaskCap)
    (nmsCap : NmsCap) (engine : Engine) (oh ow : ℕ) (img : Img) (thr : Threshold)
    (hmode : img.mode ≠ "RGB") :
    (apply resizeImg resizeMask nmsCap engine oh ow img thr).result = .error .invalidImage ∧
    (apply resizeImg resizeMask nmsCap engine oh ow img thr).preprocessInvoked = false ∧
    (apply resizeImg resizeMask nmsCap engine oh ow img thr).engineInvoked = false ∧
    (apply resizeImg resizeMask nmsCap engine oh ow img thr).nmsInvoked = false ∧
    (apply resizeImg resizeMask nmsCap engine oh ow img thr).maskInvoked = false := by
  unfold apply
  rw [if_neg hmode]
  exact ⟨rfl, rfl, rfl, rfl, rfl⟩

/-- A grayscale (mode `"L"`) copy of the test image. -/
def cImgL : Img := { h := 10, w := 10, mode := "L", px := cPx }

/-- C8 witness: the grayscale image is rejected before any tensor work. -/
theorem apply_invalid_image_witness :
    (apply cResizeImg cResizeMask specNms cEngine 10 10 cImgL cThr).result
        = .error .invalidImage ∧
    (apply cResizeImg cResizeMask specNms cEngine 10 10 cImgL cThr).preprocessInvoked = false ∧
    (apply cResizeImg cResizeMask specNms cEngine 10 10 cImgL cThr).engineInvoked = false ∧
    (apply cResizeImg cResizeMask specNms cEngine 10 10 cImgL cThr).nmsInvoked = false ∧
    (apply cResizeImg cResizeMask specNms cEngine 10 10 cImgL cThr).maskInvoked = false :=
  apply_invalid_image cResizeImg cResizeMask specNms cEngine 10 10 cImgL cThr
    (by decide)

/-- C7: `apply` is deterministic — with the inference engine and the resize and
NMS capabilities modelled as pure functions, two calls on equal images and
thresholds return equal outputs. -/
theorem apply_deterministic (resizeImg : ResizeImgCap) (resizeMask : ResizeMaskCap)
    (nmsCap : NmsCap) (engine : Engine) (oh ow : ℕ)
    (img₁ img₂ : Img) (thr₁ thr₂ : Threshold)
    (himg : img₁ = img₂) (hthr : thr₁ = thr₂) :
    apply resizeImg resizeMask nmsCap engine oh ow img₁ thr₁
      = apply resizeImg resizeMask nmsCap engine oh ow img₂ thr₂ := by
  subst himg
  subst hthr
  rfl

/-- C7 witness: determinism at the concrete run. -/
theorem apply_deterministic_witness :
    apply cResizeImg cResizeMask specNms cEngine 10 10 cImg cThr
      = apply cResizeImg cResizeMask specNms cEngine 10 10 cImg cThr :=
  apply_deterministic cResizeImg cResizeMask specNms cEngine 10 10 cImg cImg cThr cThr
    rfl rfl

/-- The confidence filter keeps nothing when no candidate is above threshold. -/
theorem likelyIdx_nil (A : ℕ) (det : ℕ → ℕ → ℚ) (confTh : ℚ)
    (h : ∀ i < A, ¬(confTh < xT det i 4)) : likelyIdx A det confTh = [] := by
  unfold likelyIdx
  rw [List.filter_eq_nil_iff]
  intro a ha
  simpa using h a (List.mem_range.mp ha)

/-- C2 (amended): when zero candidates pass the confidence filter, `apply`
returns an empty list (not an error) and mask reconstruction is not invoked,
but the NMS routine IS still invoked (on the empty candidate set) — the
short-circuit happens only after the `nms` call. -/
theorem apply_no_candidates (resizeImg : ResizeImgCap) (resizeMask : ResizeMaskCap)
    (nmsCap : NmsCap) (engine : Engine) (oh ow : ℕ) (img : Img) (thr : Threshold)
    (hmode : img.mode = "RGB")
    (pre : PreOut) (hpre : preprocess resizeImg img.h img.w img.px oh ow = some pre)
    (hnone : ∀ i < (engine pre.blob).A, ¬(thr.confidence < xT (engine pre.blob).det i 4))
    (hnms : ∀ (n : ℕ) (b : ℕ → B4) (s : ℕ → ℚ) (c i : ℚ), ∀ k ∈ nmsCap n b s c i, k < n) :
    (apply resizeImg resizeMask nmsCap engine oh ow img thr).result = .ok [] ∧
    (postprocess nmsCap resizeMask (engine pre.blob) img.h img.w pre.r pre.padW pre.padH
      thr.confidence thr.iou 32).result = none ∧
    (apply resizeImg resizeMask nmsCap engine oh ow img thr).nmsInvoked = true ∧
    (apply resizeImg resizeMask nmsCap engine oh ow img thr).maskInvoked = false := by
  have hlik : likelyIdx (engine pre.blob).A (engine pre.blob).det thr.confidence = [] :=
    likelyIdx_nil _ _ _ hnone
  have hkeep : keepF nmsCap (engine pre.blob).A (engine pre.blob).det
      thr.confidence thr.iou = [] := by
    apply List.eq_nil_iff_forall_not_mem.mpr
    intro k hk
    have hlt := hnms _ _ _ _ _ k hk
    rw [hlik] at hlt
    simp at hlt
  have hpost : postprocess nmsCap resizeMask (engine pre.blob) img.h img.w
      pre.r pre.padW pre.padH thr.confidence thr.iou 32
      = { result := none, nmsInvoked := true, maskInvoked := false } := by
    unfold postprocess
    rw [if_pos hkeep]
  have happly : apply resizeImg resizeMask nmsCap engine oh ow img thr
      = { result := .ok [], preprocessInvoked := true, engineInvoked := true
          nmsInvoked := true, maskInvoked := false } := by
    unfold apply
    rw [if_pos hmode]
    simp only [hpre, hpost]
  rw [happly, hpost]
  exact ⟨rfl, rfl, rfl, rfl⟩

/-- The low-confidence detection tensor: one candidate with score `1/2`, below
the default threshold `3/5`. -/
def cDetLow : ℕ → ℕ → ℚ := fun c _ => [(5 : ℚ), 5, 4, 2, 1 / 2].getD c 0

def cEOLow : EngineOut := { A := 1, det := cDetLow, protos := fun _ _ _ => 0 }

def cEngineLow : Engine := fun _ => cEOLow

theorem cLikelyLow : likelyIdx 1 cDetLow (3 / 5) = [] := by
  show List.filter _ (List.range 1) = []
  rw [show List.range 1 = [0] from rfl, List.filter_cons, List.filter_nil]
  have hx : xT cDetLow 0 4 = 1 / 2 := rfl
  simp only [hx]
  norm_num

theorem cKeepLowEO : keepF specNms cEOLow.A cEOLow.det (3 / 5) (1 / 2) = [] := by
  show keepF specNms 1 cDetLow (3 / 5) (1 / 2) = []
  unfold keepF specNms
  rw [cLikelyLow]
  simp [greedyNms]

/-- C2 counterexample: with the single candidate's confidence `1/2 ≤ 3/5`, zero
candidates pass, the result is empty — but the suppression stage IS invoked
(`nmsInvoked = true`), contradicting the claim that the pipeline short-circuits
without invoking NMS. -/
theorem apply_no_candidates_counterexample :
    (postprocess specNms cResizeMask cEOLow 10 10 1 0 0 (3 / 5) (1 / 2) 32).result = none ∧
    (postprocess specNms cResizeMask cEOLow 10 10 1 0 0 (3 / 5) (1 / 2) 32).nmsInvoked
      = true := by
  unfold postprocess
  rw [if_pos cKeepLowEO]
  exact ⟨rfl, rfl⟩

/-- C2 witness: the full `apply` run on the low-confidence engine returns `[]`
without an error, with the mask stage skipped and NMS invoked. -/
theorem apply_no_candidates_witness :
    (apply cResizeImg cResizeMask specNms cEngineLow 10 10 cImg cThr).result = .ok [] ∧
    (postprocess specNms cResizeMask
      (cEngineLow (preprocessRaw cResizeImg 10 10 cPx 10 10).blob) 10 10
      (preprocessRaw cResizeImg 10 10 cPx 10 10).r
      (preprocessRaw cResizeImg 10 10 cPx 10 10).padW
      (preprocessRaw cResizeImg 10 10 cPx 10 10).padH
      cThr.confidence cThr.iou 32).result = none ∧
    (apply cResizeImg cResizeMask specNms cEngineLow 10 10 cImg cThr).nmsInvoked = true ∧
    (apply cResizeImg cResizeMask specNms cEngineLow 10 10 cImg cThr).maskInvoked = false :=
  apply_no_candidates cResizeImg cResizeMask specNms cEngineLow 10 10 cImg cThr rfl
    (preprocessRaw cResizeImg 10 10 cPx 10 10) cPre_some
    (by
      intro i hi
      show ¬((3 : ℚ) / 5 < (1 : ℚ) / 2)
      norm_num)
    (fun n b s c i => specNms_valid n b s c i)

/-! ## C3: box ordering -/

theorem preprocess_some_inv (resizeImg : ResizeImgCap) (ih iw : ℕ) (px : Pix)
    (oh ow : ℕ) (pre : PreOut)
    (h : preprocess resizeImg ih iw px oh ow = some pre) :
    pre = preprocessRaw resizeImg ih iw px oh ow := by
  unfold preprocess at h
  split at h
  · simp at h
  · simp only [Option.some.injEq] at h
    exact h.symm

theorem letterboxR_pos (ih iw oh ow : ℕ)
    (hih : 0 < ih) (hiw : 0 < iw) (hoh : 0 < oh) (how : 0 < ow) :
    0 < letterboxR ih iw oh ow := by
  unfold letterboxR
  apply lt_min
  · apply div_pos
    · exact_mod_cast hoh
    · exact_mod_cast hih
  · apply div_pos
    · exact_mod_cast how
    · exact_mod_cast hiw

/-- A confidence-filtered row index is a valid row of the detection tensor. -/
theorem candAt_lt (A : ℕ) (det : ℕ → ℕ → ℚ) (confTh : ℚ) (k : ℕ)
    (hk : k < (likelyIdx A det confTh).length) :
    candAt A det confTh k < A := by
  have hmem : (likelyIdx A det confTh).getD k 0 ∈ likelyIdx A det confTh := by
    rw [List.getD_eq_getElem _ _ hk]
    exact List.getElem_mem _
  unfold likelyIdx at hmem
  exact List.mem_range.mp (List.mem_filter.mp hmem).1

/-- C3 (amended): every box returned by `apply` satisfies
`0 ≤ x1 ≤ x2 ≤ imageWidth` and `0 ≤ y1 ≤ y2 ≤ imageHeight` — provided the
image and model dimensions are positive (so the shared scale ratio is
positive) and every raw candidate has nonnegative width and height; without
the latter the clipping can invert the coordinate order. -/
theorem apply_boxes_ordered (resizeImg : ResizeImgCap) (resizeMask : ResizeMaskCap)
    (nmsCap : NmsCap) (engine : Engine) (oh ow : ℕ) (img : Img) (thr : Threshold)
    (hih : 0 < img.h) (hiw : 0 < img.w) (hoh : 0 < oh) (how : 0 < ow)
    (hnms : ∀ (n : ℕ) (b : ℕ → B4) (s : ℕ → ℚ) (c i : ℚ), ∀ k ∈ nmsCap n b s c i, k < n)
    (hwh : ∀ pre : PreOut, ∀ i < (engine pre.blob).A,
      0 ≤ xT (engine pre.blob).det i 2 ∧ 0 ≤ xT (engine pre.blob).det i 3)
    (rs : List SegResult)
    (hok : (apply resizeImg resizeMask nmsCap engine oh ow img thr).result = .ok rs) :
    ∀ res ∈ rs,
      0 ≤ res.box.x1 ∧ res.box.x1 ≤ res.box.x2 ∧ res.box.x2 ≤ (img.w : ℚ) ∧
      0 ≤ res.box.y1 ∧ res.box.y1 ≤ res.box.y2 ∧ res.box.y2 ≤ (img.h : ℚ) := by
  intro res hres
  rcases apply_ok_inv resizeImg resizeMask nmsCap engine oh ow img thr rs hok with
    hnil | ⟨pre, hpre, hrs⟩
  · subst hnil
    exact absurd hres (List.not_mem_nil res)
  · subst hrs
    unfold mkResults at hres
    rcases List.mem_map.mp hres with ⟨j, hj, hres_eq⟩
    have hjlt : j <
        (keepF nmsCap (engine pre.blob).A (engine pre.blob).det thr.confidence thr.iou).length := by
      simpa [postprocessRaw] using List.mem_range.mp hj
    have hkmem :
        (keepF nmsCap (engine pre.blob).A (engine pre.blob).det thr.confidence thr.iou).getD j 0
          ∈ keepF nmsCap (engine pre.blob).A (engine pre.blob).det thr.confidence thr.iou := by
      rw [List.getD_eq_getElem _ _ hjlt]
      exact List.getElem_mem _
    have hklt := hnms _ _ _ _ _ _ hkmem
    have hcand := candAt_lt (engine pre.blob).A (engine pre.blob).det thr.confidence _ hklt
    have hwh2 := hwh pre _ hcand
    have hrpos : 0 < pre.r := by
      rw [preprocess_some_inv resizeImg img.h img.w img.px oh ow pre hpre]
      exact letterboxR_pos img.h img.w oh ow hih hiw hoh how
    have hbox := processBox_ordered
      (boxesCF (engine pre.blob).A (engine pre.blob).det thr.confidence
        ((keepF nmsCap (engine pre.blob).A (engine pre.blob).det thr.confidence thr.iou).getD j 0))
      pre.r pre.padW pre.padH img.h img.w hrpos hwh2.1 hwh2.2
    have hb : res.box = Box.fromXyxy (processBox
        (boxesCF (engine pre.blob).A (engine pre.blob).det thr.confidence
          ((keepF nmsCap (engine pre.blob).A (engine pre.blob).det thr.confidence thr.iou).getD j 0))
        pre.r pre.padW pre.padH img.h img.w) := by
      rw [← hres_eq]
      rfl
    rw [hb]
    exact hbox

theorem cPreR : (preprocessRaw cResizeImg 10 10 cPx 10 10).r = 1 := by
  show letterboxR 10 10 10 10 = 1
  norm_num [letterboxR]

theorem cPrePadW : (preprocessRaw cResizeImg 10 10 cPx 10 10).padW = 0 := by
  show letterboxPadW 10 10 10 10 = 0
  rw [letterboxPadW, cRW]
  norm_num

theorem cPrePadH : (preprocessRaw cResizeImg 10 10 cPx 10 10).padH = 0 := by
  show letterboxPadH 10 10 10 10 = 0
  rw [letterboxPadH, cRH]
  norm_num

theorem mkResults_getD (raw : RawResult) (j : ℕ) (h : j < raw.n) :
    (mkResults raw).getD j default
      = { box := Box.fromXyxy (raw.boxes j), score := raw.scores j, mask := raw.masks j } := by
  unfold mkResults
  rw [List.getD_eq_getElem _ _ (by simpa using h)]
  simp

/-- The adversarial detection tensor: one high-confidence candidate with a
NEGATIVE raw width (`w = -4`), which nothing in the pipeline rejects. -/
def cDetNeg : ℕ → ℕ → ℚ := fun c _ => [(5 : ℚ), 5, -4, 2, 9 / 10].getD c 0

def cEONeg : EngineOut := { A := 1, det := cDetNeg, protos := fun _ _ _ => 0 }

def cEngineNeg : Engine := fun _ => cEONeg

theorem cLikelyNeg : likelyIdx 1 cDetNeg (3 / 5) = [0] := by
  show List.filter _ (List.range 1) = [0]
  rw [show List.range 1 = [0] from rfl, List.filter_cons, List.filter_nil]
  have hx : xT cDetNeg 0 4 = 9 / 10 := rfl
  simp only [hx]
  norm_num

theorem cScoreNeg : scoresF 1 cDetNeg (3 / 5) 0 = 9 / 10 := by
  unfold scoresF candAt
  rw [cLikelyNeg]
  rfl

theorem cKeepNeg : keepF specNms 1 cDetNeg (3 / 5) (1 / 2) = [0] := by
  unfold keepF specNms
  rw [cLikelyNeg]
  rw [show ([0] : List ℕ).length = 1 from rfl, show List.range 1 = [0] from rfl,
    List.filter_cons, List.filter_nil]
  rw [cScoreNeg]
  norm_num [greedyNms]

theorem cKeepNegEO : keepF specNms cEONeg.A cEONeg.det (3 / 5) (1 / 2) = [0] := cKeepNeg

theorem cChecksNeg (ratio padW padH : ℚ) :
    checkAsserts (postprocessRaw specNms cResizeMask cEONeg 10 10 ratio padW padH
      (3 / 5) (1 / 2) 32) = true := by
  unfold checkAsserts postprocessRaw
  simp only [cEONeg]
  rw [cKeepNeg, show ([0] : List ℕ).length = 1 from rfl, show List.range 1 = [0] from rfl,
    List.all_cons, List.all_nil]
  simp only [List.getD_cons_zero, cScoreNeg]
  norm_num

theorem cApplyNeg_result :
    (apply cResizeImg cResizeMask specNms cEngineNeg 10 10 cImg cThr).result =
      .ok (mkResults (postprocessRaw specNms cResizeMask cEONeg 10 10
        (preprocessRaw cResizeImg 10 10 cPx 10 10).r
        (preprocessRaw cResizeImg 10 10 cPx 10 10).padW
        (preprocessRaw cResizeImg 10 10 cPx 10 10).padH (3 / 5) (1 / 2) 32)) := by
  unfold apply
  simp only [cImg, cPre_some, cEngineNeg, cThr]
  simp only [if_true]
  simp only [postprocess]
  rw [cKeepNegEO]
  rw [if_neg (by simp : ¬([0] : List ℕ) = [])]
  simp only [cChecksNeg]
  simp only [if_true]

theorem cLenNeg :
    (postprocessRaw specNms cResizeMask cEONeg 10 10
      (preprocessRaw cResizeImg 10 10 cPx 10 10).r
      (preprocessRaw cResizeImg 10 10 cPx 10 10).padW
      (preprocessRaw cResizeImg 10 10 cPx 10 10).padH (3 / 5) (1 / 2) 32).n = 1 := by
  simp only [postprocessRaw]
  rw [cKeepNegEO]
  rfl

theorem cBoxCFNeg : boxesCF 1 cDetNeg (3 / 5) 0 = { c0 := 5, c1 := 5, c2 := -4, c3 := 2 } := by
  unfold boxesCF candAt
  rw [cLikelyNeg]
  rfl

theorem cBoxesRNeg :
    (postprocessRaw specNms cResizeMask cEONeg 10 10
      (preprocessRaw cResizeImg 10 10 cPx 10 10).r
      (preprocessRaw cResizeImg 10 10 cPx 10 10).padW
      (preprocessRaw cResizeImg 10 10 cPx 10 10).padH (3 / 5) (1 / 2) 32).boxes 0
      = { c0 := 7, c1 := 4, c2 := 3, c3 := 6 } := by
  simp only [postprocessRaw]
  rw [cKeepNegEO]
  simp only [postprocessBoxes]
  rw [show ([0] : List ℕ).getD 0 0 = 0 from rfl]
  have hb : boxesCF cEONeg.A cEONeg.det (3 / 5) 0 = { c0 := 5, c1 := 5, c2 := -4, c3 := 2 } :=
    cBoxCFNeg
  rw [hb, cPreR, cPrePadW, cPrePadH]
  unfold processBox clipQ
  simp only [B4.mk.injEq]
  norm_num

/-- C3 counterexample: the engine may emit a candidate with negative raw width
(here `(cx, cy, w, h) = (5, 5, -4, 2)`, confidence `9/10`); `apply` then
returns a box `(x1, y1, x2, y2) = (7, 4, 3, 6)` with `x2 < x1`, refuting
`x1 ≤ x2` for boxes returned by `apply`. -/
theorem apply_boxes_ordered_counterexample :
    (apply cResizeImg cResizeMask specNms cEngineNeg 10 10 cImg cThr).result =
      .ok (mkResults (postprocessRaw specNms cResizeMask cEONeg 10 10
        (preprocessRaw cResizeImg 10 10 cPx 10 10).r
        (preprocessRaw cResizeImg 10 10 cPx 10 10).padW
        (preprocessRaw cResizeImg 10 10 cPx 10 10).padH (3 / 5) (1 / 2) 32)) ∧
    ((mkResults (postprocessRaw specNms cResizeMask cEONeg 10 10
        (preprocessRaw cResizeImg 10 10 cPx 10 10).r
        (preprocessRaw cResizeImg 10 10 cPx 10 10).padW
        (preprocessRaw cResizeImg 10 10 cPx 10 10).padH (3 / 5) (1 / 2) 32)).getD 0
          default).box = { x1 := 7, y1 := 4, x2 := 3, y2 := 6 } ∧
    ¬((7 : ℚ) ≤ 3) := by
  refine ⟨cApplyNeg_result, ?_, by norm_num⟩
  rw [mkResults_getD _ 0 (by rw [cLenNeg]; norm_num)]
  show Box.fromXyxy _ = _
  rw [cBoxesRNeg]
  rfl

/-- C3 witness: with nonnegative raw widths/heights, the concrete run's box
`(3, 4, 7, 6)` is correctly ordered and within bounds. -/
theorem apply_boxes_ordered_witness :
    0 ≤ ((mkResults (postprocessRaw specNms cResizeMask cEO 10 10
        (preprocessRaw cResizeImg 10 10 cPx 10 10).r
        (preprocessRaw cResizeImg 10 10 cPx 10 10).padW
        (preprocessRaw cResizeImg 10 10 cPx 10 10).padH (3 / 5) (1 / 2) 32)).getD 0
          default).box.x1 ∧
    ((mkResults (postprocessRaw specNms cResizeMask cEO 10 10
        (preprocessRaw cResizeImg 10 10 cPx 10 10).r
        (preprocessRaw cResizeImg 10 10 cPx 10 10).padW
        (preprocessRaw cResizeImg 10 10 cPx 10 10).padH (3 / 5) (1 / 2) 32)).getD 0
          default).box.x1 ≤
      ((mkResults (postprocessRaw specNms cResizeMask cEO 10 10
        (preprocessRaw cResizeImg 10 10 cPx 10 10).r
        (preprocessRaw cResizeImg 10 10 cPx 10 10).padW
        (preprocessRaw cResizeImg 10 10 cPx 10 10).padH (3 / 5) (1 / 2) 32)).getD 0
          default).box.x2 ∧
    ((mkResults (postprocessRaw specNms cResizeMask cEO 10 10
        (preprocessRaw cResizeImg 10 10 cPx 10 10).r
        (preprocessRaw cResizeImg 10 10 cPx 10 10).padW
        (preprocessRaw cResizeImg 10 10 cPx 10 10).padH (3 / 5) (1 / 2) 32)).getD 0
          default).box.x2 ≤ ((10 : ℕ) : ℚ) ∧
    0 ≤ ((mkResults (postprocessRaw specNms cResizeMask cEO 10 10
        (preprocessRaw cResizeImg 10 10 cPx 10 10).r
        (preprocessRaw cResizeImg 10 10 cPx 10 10).padW
        (preprocessRaw cResizeImg 10 10 cPx 10 10).padH (3 / 5) (1 / 2) 32)).getD 0
          default).box.y1 ∧
    ((mkResults (postprocessRaw specNms cResizeMask cEO 10 10
        (preprocessRaw cResizeImg 10 10 cPx 10 10).r
        (preprocessRaw cResizeImg 10 10 cPx 10 10).padW
        (preprocessRaw cResizeImg 10 10 cPx 10 10).padH (3 / 5) (1 / 2) 32)).getD 0
          default).box.y1 ≤
      ((mkResults (postprocessRaw specNms cResizeMask cEO 10 10
        (preprocessRaw cResizeImg 10 10 cPx 10 10).r
        (preprocessRaw cResizeImg 10 10 cPx 10 10).padW
        (preprocessRaw cResizeImg 10 10 cPx 10 10).padH (3 / 5) (1 / 2) 32)).getD 0
          default).box.y2 ∧
    ((mkResults (postprocessRaw specNms cResizeMask cEO 10 10
        (preprocessRaw cResizeImg 10 10 cPx 10 10).r
        (preprocessRaw cResizeImg 10 10 cPx 10 10).padW
        (preprocessRaw cResizeImg 10 10 cPx 10 10).padH (3 / 5) (1 / 2) 32)).getD 0
          default).box.y2 ≤ ((10 : ℕ) : ℚ) := by
  have hlen : (mkResults (postprocessRaw specNms cResizeMask cEO 10 10
      (preprocessRaw cResizeImg 10 10 cPx 10 10).r
      (preprocessRaw cResizeImg 10 10 cPx 10 10).padW
      (preprocessRaw cResizeImg 10 10 cPx 10 10).padH (3 / 5) (1 / 2) 32)).length = 1 := by
    simp only [mkResults, List.length_map, List.length_range, postprocessRaw, cEO]
    rw [cKeep]
    rfl
  have hmem : (mkResults (postprocessRaw specNms cResizeMask cEO 10 10
      (preprocessRaw cResizeImg 10 10 cPx 10 10).r
      (preprocessRaw cResizeImg 10 10 cPx 10 10).padW
      (preprocessRaw cResizeImg 10 10 cPx 10 10).padH (3 / 5) (1 / 2) 32)).getD 0 default
        ∈ mkResults (postprocessRaw specNms cResizeMask cEO 10 10
      (preprocessRaw cResizeImg 10 10 cPx 10 10).r
      (preprocessRaw cResizeImg 10 10 cPx 10 10).padW
      (preprocessRaw cResizeImg 10 10 cPx 10 10).padH (3 / 5) (1 / 2) 32) := by
    rw [List.getD_eq_getElem _ _ (by rw [hlen]; norm_num)]
    exact List.getElem_mem _
  exact apply_boxes_ordered cResizeImg cResizeMask specNms cEngine 10 10 cImg cThr
    (by decide) (by decide) (by norm_num) (by norm_num)
    (fun n b s c i => specNms_valid n b s c i)
    (fun pre i hi => ⟨by show (0 : ℚ) ≤ 4; norm_num, by show (0 : ℚ) ≤ 2; norm_num⟩)
    _ cApply_result _ hmem

/-! ## C1: mask values -/

/-- Every output of `postprocess_masks` is a sigmoid value, hence in `(0, 1)`. -/
theorem maskOne_bounds (resizeMask : ResizeMaskCap) (protos : ℕ → ℕ → ℕ → ℚ)
    (nm : ℕ) (coefs : ℕ → ℚ) (b : B4) (ih iw y x : ℕ) :
    0 ≤ maskOne resizeMask protos nm coefs b ih iw y x ∧
    maskOne resizeMask protos nm coefs b ih iw y x ≤ 1 :=
  ⟨le_of_lt (sigmoid_pos _), le_of_lt (sigmoid_lt_one _)⟩

/-- Outside the box, the crop zeroes the PRE-activation mask, so the final
value is `sigmoid 0 = 1/2` — not `0`. -/
theorem maskOne_outside (resizeMask : ResizeMaskCap) (protos : ℕ → ℕ → ℕ → ℚ)
    (nm : ℕ) (coefs : ℕ → ℚ) (b : B4) (ih iw y x : ℕ)
    (h : ¬(b.c0 ≤ (x : ℚ) ∧ (x : ℚ) < b.c2 ∧ b.c1 ≤ (y : ℚ) ∧ (y : ℚ) < b.c3)) :
    maskOne resizeMask protos nm coefs b ih iw y x = 1 / 2 := by
  unfold maskOne cropOne
  rw [if_neg h, mul_zero, Rat.cast_zero]
  exact sigmoid_zero

/-- C1 (amended): every mask returned by `apply` has all elements within
`[0, 1]` (indeed within the open interval `(0, 1)`), and every element at a
pixel outside the associated box equals exactly `sigmoid 0 = 1/2` — not `0` —
because `postprocess_masks` crops before applying the sigmoid. -/
theorem apply_mask_bounds (resizeImg : ResizeImgCap) (resizeMask : ResizeMaskCap)
    (nmsCap : NmsCap) (engine : Engine) (oh ow : ℕ) (img : Img) (thr : Threshold)
    (rs : List SegResult)
    (hok : (apply resizeImg resizeMask nmsCap engine oh ow img thr).result = .ok rs) :
    ∀ res ∈ rs, ∀ y x : ℕ,
      (0 ≤ res.mask y x ∧ res.mask y x ≤ 1) ∧
      (¬(res.box.x1 ≤ (x : ℚ) ∧ (x : ℚ) < res.box.x2 ∧
          res.box.y1 ≤ (y : ℚ) ∧ (y : ℚ) < res.box.y2) →
        res.mask y x = 1 / 2) := by
  intro res hres y x
  rcases apply_ok_inv resizeImg resizeMask nmsCap engine oh ow img thr rs hok with
    hnil | ⟨pre, hpre, hrs⟩
  · subst hnil
    exact absurd hres (List.not_mem_nil res)
  · subst hrs
    unfold mkResults at hres
    rcases List.mem_map.mp hres with ⟨j, hj, hres_eq⟩
    have hmask : res.mask = (postprocessRaw nmsCap resizeMask (engine pre.blob) img.h img.w
        pre.r pre.padW pre.padH thr.confidence thr.iou 32).masks j := by
      rw [← hres_eq]
    have hbox : res.box = Box.fromXyxy ((postprocessRaw nmsCap resizeMask (engine pre.blob)
        img.h img.w pre.r pre.padW pre.padH thr.confidence thr.iou 32).boxes j) := by
      rw [← hres_eq]
    rw [hmask, hbox]
    constructor
    · exact maskOne_bounds resizeMask (engine pre.blob).protos 32 _ _ img.h img.w y x
    · intro hout
      exact maskOne_outside resizeMask (engine pre.blob).protos 32 _ _ img.h img.w y x hout

theorem cLenPos :
    (postprocessRaw specNms cResizeMask cEO 10 10
      (preprocessRaw cResizeImg 10 10 cPx 10 10).r
      (preprocessRaw cResizeImg 10 10 cPx 10 10).padW
      (preprocessRaw cResizeImg 10 10 cPx 10 10).padH (3 / 5) (1 / 2) 32).n = 1 := by
  simp only [postprocessRaw]
  rw [cKeepEO]
  rfl

theorem cBoxCF : boxesCF 1 cDet (3 / 5) 0 = { c0 := 5, c1 := 5, c2 := 4, c3 := 2 } := by
  unfold boxesCF candAt
  rw [cLikely]
  rfl

theorem cBoxesR :
    (postprocessRaw specNms cResizeMask cEO 10 10
      (preprocessRaw cResizeImg 10 10 cPx 10 10).r
      (preprocessRaw cResizeImg 10 10 cPx 10 10).padW
      (preprocessRaw cResizeImg 10 10 cPx 10 10).padH (3 / 5) (1 / 2) 32).boxes 0
      = { c0 := 3, c1 := 4, c2 := 7, c3 := 6 } := by
  simp only [postprocessRaw]
  rw [cKeepEO]
  simp only [postprocessBoxes]
  rw [show ([0] : List ℕ).getD 0 0 = 0 from rfl]
  have hb : boxesCF cEO.A cEO.det (3 / 5) 0 = { c0 := 5, c1 := 5, c2 := 4, c3 := 2 } :=
    cBoxCF
  rw [hb, cPreR, cPrePadW, cPrePadH]
  unfold processBox clipQ
  simp only [B4.mk.injEq]
  norm_num

/-- C1 counterexample: the concrete run returns the box `(3, 4, 7, 6)`; the
pixel `(y, x) = (0, 0)` lies outside that box (`¬(3 ≤ 0)`), yet the mask value
there is `1/2`, not `0`. -/
theorem apply_mask_bounds_counterexample :
    (apply cResizeImg cResizeMask specNms cEngine 10 10 cImg cThr).result =
      .ok (mkResults (postprocessRaw specNms cResizeMask cEO 10 10
        (preprocessRaw cResizeImg 10 10 cPx 10 10).r
        (preprocessRaw cResizeImg 10 10 cPx 10 10).padW
        (preprocessRaw cResizeImg 10 10 cPx 10 10).padH (3 / 5) (1 / 2) 32)) ∧
    ((mkResults (postprocessRaw specNms cResizeMask cEO 10 10
        (preprocessRaw cResizeImg 10 10 cPx 10 10).r
        (preprocessRaw cResizeImg 10 10 cPx 10 10).padW
        (preprocessRaw cResizeImg 10 10 cPx 10 10).padH (3 / 5) (1 / 2) 32)).getD 0
          default).box = { x1 := 3, y1 := 4, x2 := 7, y2 := 6 } ∧
    ¬((3 : ℚ) ≤ 0) ∧
    ((mkResults (postprocessRaw specNms cResizeMask cEO 10 10
        (preprocessRaw cResizeImg 10 10 cPx 10 10).r
        (preprocessRaw cResizeImg 10 10 cPx 10 10).padW
        (preprocessRaw cResizeImg 10 10 cPx 10 10).padH (3 / 5) (1 / 2) 32)).getD 0
          default).mask 0 0 = 1 / 2 ∧
    ((1 : ℝ) / 2 ≠ 0) := by
  have hgetD := mkResults_getD (postprocessRaw specNms cResizeMask cEO 10 10
    (preprocessRaw cResizeImg 10 10 cPx 10 10).r
    (preprocessRaw cResizeImg 10 10 cPx 10 10).padW
    (preprocessRaw cResizeImg 10 10 cPx 10 10).padH (3 / 5) (1 / 2) 32) 0
    (by rw [cLenPos]; norm_num)
  refine ⟨cApply_result, ?_, by norm_num, ?_, by norm_num⟩
  · rw [hgetD]
    show Box.fromXyxy _ = _
    rw [cBoxesR]
    rfl
  · rw [hgetD]
    show (postprocessRaw specNms cResizeMask cEO 10 10
      (preprocessRaw cResizeImg 10 10 cPx 10 10).r
      (preprocessRaw cResizeImg 10 10 cPx 10 10).padW
      (preprocessRaw cResizeImg 10 10 cPx 10 10).padH (3 / 5) (1 / 2) 32).masks 0 0 0 = 1 / 2
    have hout : ¬(((postprocessRaw specNms cResizeMask cEO 10 10
        (preprocessRaw cResizeImg 10 10 cPx 10 10).r
        (preprocessRaw cResizeImg 10 10 cPx 10 10).padW
        (preprocessRaw cResizeImg 10 10 cPx 10 10).padH (3 / 5) (1 / 2) 32).boxes 0).c0
          ≤ ((0 : ℕ) : ℚ) ∧
        ((0 : ℕ) : ℚ) < ((postprocessRaw specNms cResizeMask cEO 10 10
        (preprocessRaw cResizeImg 10 10 cPx 10 10).r
        (preprocessRaw cResizeImg 10 10 cPx 10 10).padW
        (preprocessRaw cResizeImg 10 10 cPx 10 10).padH (3 / 5) (1 / 2) 32).boxes 0).c2 ∧
        ((postprocessRaw specNms cResizeMask cEO 10 10
        (preprocessRaw cResizeImg 10 10 cPx 10 10).r
        (preprocessRaw cResizeImg 10 10 cPx 10 10).padW
        (preprocessRaw cResizeImg 10 10 cPx 10 10).padH (3 / 5) (1 / 2) 32).boxes 0).c1
          ≤ ((0 : ℕ) : ℚ) ∧
        ((0 : ℕ) : ℚ) < ((postprocessRaw specNms cResizeMask cEO 10 10
        (preprocessRaw cResizeImg 10 10 cPx 10 10).r
        (preprocessRaw cResizeImg 10 10 cPx 10 10).padW
        (preprocessRaw cResizeImg 10 10 cPx 10 10).padH (3 / 5) (1 / 2) 32).boxes 0).c3) := by
      rw [cBoxesR]
      push_cast
      norm_num
    exact maskOne_outside cResizeMask cEO.protos 32 _ _ 10 10 0 0 hout

/-- C1 witness: the amended theorem at the concrete run and pixel `(0, 0)`. -/
theorem apply_mask_bounds_witness :
    (0 ≤ ((mkResults (postprocessRaw specNms cResizeMask cEO 10 10
        (preprocessRaw cResizeImg 10 10 cPx 10 10).r
        (preprocessRaw cResizeImg 10 10 cPx 10 10).padW
        (preprocessRaw cResizeImg 10 10 cPx 10 10).padH (3 / 5) (1 / 2) 32)).getD 0
          default).mask 0 0 ∧
      ((mkResults (postprocessRaw specNms cResizeMask cEO 10 10
        (preprocessRaw cResizeImg 10 10 cPx 10 10).r
        (preprocessRaw cResizeImg 10 10 cPx 10 10).padW
        (preprocessRaw cResizeImg 10 10 cPx 10 10).padH (3 / 5) (1 / 2) 32)).getD 0
          default).mask 0 0 ≤ 1) ∧
    ((mkResults (postprocessRaw specNms cResizeMask cEO 10 10
        (preprocessRaw cResizeImg 10 10 cPx 10 10).r
        (preprocessRaw cResizeImg 10 10 cPx 10 10).padW
        (preprocessRaw cResizeImg 10 10 cPx 10 10).padH (3 / 5) (1 / 2) 32)).getD 0
          default).mask 0 0 = 1 / 2 := by
  have hlen : (mkResults (postprocessRaw specNms cResizeMask cEO 10 10
      (preprocessRaw cResizeImg 10 10 cPx 10 10).r
      (preprocessRaw cResizeImg 10 10 cPx 10 10).padW
      (preprocessRaw cResizeImg 10 10 cPx 10 10).padH (3 / 5) (1 / 2) 32)).length = 1 := by
    simp only [mkResults, List.length_map, List.length_range]
    rw [cLenPos]
  have hmem : (mkResults (postprocessRaw specNms cResizeMask cEO 10 10
      (preprocessRaw cResizeImg 10 10 cPx 10 10).r
      (preprocessRaw cResizeImg 10 10 cPx 10 10).padW
      (preprocessRaw cResizeImg 10 10 cPx 10 10).padH (3 / 5) (1 / 2) 32)).getD 0 default
        ∈ mkResults (postprocessRaw specNms cResizeMask cEO 10 10
      (preprocessRaw cResizeImg 10 10 cPx 10 10).r
      (preprocessRaw cResizeImg 10 10 cPx 10 10).padW
      (preprocessRaw cResizeImg 10 10 cPx 10 10).padH (3 / 5) (1 / 2) 32) := by
    rw [List.getD_eq_getElem _ _ (by rw [hlen]; norm_num)]
    exact List.getElem_mem _
  have h := apply_mask_bounds cResizeImg cResizeMask specNms cEngine 10 10 cImg cThr
    _ cApply_result _ hmem 0 0
  refine ⟨h.1, h.2 ?_⟩
  have hgetD := mkResults_getD (postprocessRaw specNms cResizeMask cEO 10 10
    (preprocessRaw cResizeImg 10 10 cPx 10 10).r
    (preprocessRaw cResizeImg 10 10 cPx 10 10).padW
    (preprocessRaw cResizeImg 10 10 cPx 10 10).padH (3 / 5) (1 / 2) 32) 0
    (by rw [cLenPos]; norm_num)
  simp only [hgetD, cBoxesR, Box.fromXyxy]
  push_cast
  norm_num

/-! ## C9: `postprocess_boxes` does not modify its input

Numpy aliasing is modelled explicitly: a store of buffers, references as
indices, `boxes.copy()` as allocation of a fresh buffer at the end of the
store, and each whole-array statement of `postprocess_boxes` as an in-place
update of the buffer it targets. -/

/-- An `(N, 4)` float array as a list of rows. -/
abbrev Buf := List (List ℚ)

/-- The store of live numpy buffers; a reference is an index into it. -/
abbrev Store := List Buf

/-- `boxes[:, [0, 1]] -= boxes[:, [2, 3]] / 2` (line 225). -/
def bufOp1 (b : Buf) : Buf :=
  b.map fun row =>
    [row.getD 0 0 - row.getD 2 0 / 2, row.getD 1 0 - row.getD 3 0 / 2,
      row.getD 2 0, row.getD 3 0]

/-- `boxes[:, [2, 3]] += boxes[:, [0, 1]]` (line 226). -/
def bufOp2 (b : Buf) : Buf :=
  b.map fun row =>
    [row.getD 0 0, row.getD 1 0, row.getD 2 0 + row.getD 0 0, row.getD 3 0 + row.getD 1 0]

/-- `boxes -= [pad_w, pad_h, pad_w, pad_h]` (line 228). -/
def bufOp3 (padW padH : ℚ) (b : Buf) : Buf :=
  b.map fun row =>
    [row.getD 0 0 - padW, row.getD 1 0 - padH, row.getD 2 0 - padW, row.getD 3 0 - padH]

/-- `boxes /= ratio` (line 229). -/
def bufOp4 (ratio : ℚ) (b : Buf) : Buf :=
  b.map fun row =>
    [row.getD 0 0 / ratio, row.getD 1 0 / ratio, row.getD 2 0 / ratio, row.getD 3 0 / ratio]

/-- `boxes[:, [0, 2]] = boxes[:, [0, 2]].clip(0, iw)` (line 232). -/
def bufOp5 (iw : ℕ) (b : Buf) : Buf :=
  b.map fun row =>
    [clipQ (row.getD 0 0) 0 (iw : ℚ), row.getD 1 0, clipQ (row.getD 2 0) 0 (iw : ℚ),
      row.getD 3 0]

/-- `boxes[:, [1, 3]] = boxes[:, [1, 3]].clip(0, ih)` (line 233). -/
def bufOp6 (ih : ℕ) (b : Buf) : Buf :=
  b.map fun row =>
    [row.getD 0 0, clipQ (row.getD 1 0) 0 (ih : ℚ), row.getD 2 0,
      clipQ (row.getD 3 0) 0 (ih : ℚ)]

/-- The value-level composition of the six statements. -/
def bufTransform (ratio padW padH : ℚ) (ih iw : ℕ) (b : Buf) : Buf :=
  bufOp6 ih (bufOp5 iw (bufOp4 ratio (bufOp3 padW padH (bufOp2 (bufOp1 b)))))

/-- The six in-place updates, all writing to the buffer at index `c`. -/
def bufOpsAt (ratio padW padH : ℚ) (ih iw : ℕ) (s : Store) (c : ℕ) : Store :=
  let s2 := s.set c (bufOp1 (s.getD c []))
  let s3 := s2.set c (bufOp2 (s2.getD c []))
  let s4 := s3.set c (bufOp3 padW padH (s3.getD c []))
  let s5 := s4.set c (bufOp4 ratio (s4.getD c []))
  let s6 := s5.set c (bufOp5 iw (s5.getD c []))
  s6.set c (bufOp6 ih (s6.getD c []))

/-- `SegModel.postprocess_boxes` as a store program: `boxes = boxes.copy()`
(line 224) allocates a fresh buffer at the end of the store; all six in-place
statements then target only the copy, whose reference is returned. -/
def postprocessBoxesMem (store : Store) (ref : ℕ) (ratio padW padH : ℚ) (ih iw : ℕ) :
    Store × ℕ :=
  (bufOpsAt ratio padW padH ih iw (store ++ [store.getD ref []]) store.length,
    store.length)

theorem getD_set_ne (l : List Buf) (m n : ℕ) (a : Buf) (h : m ≠ n) :
    (l.set m a).getD n [] = l.getD n [] := by
  rw [List.getD_eq_getD_get?, List.getD_eq_getD_get?, List.get?_set_ne a l h]

theorem getD_set_self (l : List Buf) (m : ℕ) (a : Buf) (h : m < l.length) :
    (l.set m a).getD m [] = a := by
  rw [List.getD_eq_getD_get?, List.get?_set_eq_of_lt a h]
  rfl

/-- Reads at any other reference see the store unchanged by the updates. -/
theorem bufOpsAt_getD_ne (ratio padW padH : ℚ) (ih iw : ℕ) (s : Store) (c n : ℕ)
    (h : c ≠ n) :
    (bufOpsAt ratio padW padH ih iw s c).getD n [] = s.getD n [] := by
  unfold bufOpsAt
  rw [getD_set_ne _ _ _ _ h, getD_set_ne _ _ _ _ h, getD_set_ne _ _ _ _ h,
    getD_set_ne _ _ _ _ h, getD_set_ne _ _ _ _ h, getD_set_ne _ _ _ _ h]

/-- Reading back the updated buffer yields the composed transform. -/
theorem bufOpsAt_getD_self (ratio padW padH : ℚ) (ih iw : ℕ) (s : Store) (c : ℕ)
    (h : c < s.length) :
    (bufOpsAt ratio padW padH ih iw s c).getD c []
      = bufTransform ratio padW padH ih iw (s.getD c []) := by
  unfold bufOpsAt bufTransform
  rw [getD_set_self _ _ _ (by simpa using h), getD_set_self _ _ _ (by simpa using h),
    getD_set_self _ _ _ (by simpa using h), getD_set_self _ _ _ (by simpa using h),
    getD_set_self _ _ _ (by simpa using h), getD_set_self _ _ _ (by simpa using h)]

/-- The memory program agrees rowwise with `processBox` on well-formed rows. -/
theorem bufTransform_row (b : B4) (ratio padW padH : ℚ) (ih iw : ℕ) :
    bufTransform ratio padW padH ih iw [[b.c0, b.c1, b.c2, b.c3]]
      = [[(processBox b ratio padW padH ih iw).c0, (processBox b ratio padW padH ih iw).c1,
          (processBox b ratio padW padH ih iw).c2, (processBox b ratio padW padH ih iw).c3]] :=
  rfl

/-- C9: `postprocess_boxes` leaves the input array's contents unchanged and
returns a freshly allocated array (the copy's reference, distinct from every
pre-existing reference), whose contents are the rescaled boxes. -/
theorem postprocessBoxesMem_frame (store : Store) (ref : ℕ) (ratio padW padH : ℚ)
    (ih iw : ℕ) (href : ref < store.length) :
    ((postprocessBoxesMem store ref ratio padW padH ih iw).1.getD ref []
        = store.getD ref []) ∧
    (postprocessBoxesMem store ref ratio padW padH ih iw).2 = store.length ∧
    (postprocessBoxesMem store ref ratio padW padH ih iw).2 ≠ ref ∧
    ((postprocessBoxesMem store ref ratio padW padH ih iw).1.getD
        (postprocessBoxesMem store ref ratio padW padH ih iw).2 []
      = bufTransform ratio padW padH ih iw (store.getD ref [])) := by
  have hne : store.length ≠ ref := (ne_of_lt href).symm
  refine ⟨?_, rfl, hne, ?_⟩
  · show (bufOpsAt ratio padW padH ih iw (store ++ [store.getD ref []])
      store.length).getD ref [] = store.getD ref []
    rw [bufOpsAt_getD_ne _ _ _ _ _ _ _ _ hne]
    exact List.getD_append _ _ _ _ href
  · show (bufOpsAt ratio padW padH ih iw (store ++ [store.getD ref []])
      store.length).getD store.length [] = _
    rw [bufOpsAt_getD_self _ _ _ _ _ _ _ (by simp)]
    congr 1
    rw [List.getD_append_right _ _ _ _ le_rfl]
    simp

/-- C9 witness: a one-buffer store holding the row `[1, 2, 3, 4]`. -/
theorem postprocessBoxesMem_frame_witness :
    ((postprocessBoxesMem [[[(1 : ℚ), 2, 3, 4]]] 0 1 0 0 10 10).1.getD 0 []
        = ([[[(1 : ℚ), 2, 3, 4]]] : Store).getD 0 []) ∧
    (postprocessBoxesMem [[[(1 : ℚ), 2, 3, 4]]] 0 1 0 0 10 10).2
        = ([[[(1 : ℚ), 2, 3, 4]]] : Store).length ∧
    (postprocessBoxesMem [[[(1 : ℚ), 2, 3, 4]]] 0 1 0 0 10 10).2 ≠ 0 ∧
    ((postprocessBoxesMem [[[(1 : ℚ), 2, 3, 4]]] 0 1 0 0 10 10).1.getD
        (postprocessBoxesMem [[[(1 : ℚ), 2, 3, 4]]] 0 1 0 0 10 10).2 []
      = bufTransform 1 0 0 10 10 (([[[(1 : ℚ), 2, 3, 4]]] : Store).getD 0 [])) :=
  postprocessBoxesMem_frame [[[(1 : ℚ), 2, 3, 4]]] 0 1 0 0 10 10 (by norm_num)

/-! ## C10: model handle construction -/

/-- One declared input of an inference session: name, element type string and
shape. -/
structure SessInput where
  name : String
  type : String
  shape : List ℤ

/-- An inference session as seen by `SegModel.__init__`. -/
structure Session where
  inputs : List SessInput

/-- The blob element type selected at construction. -/
inductive NumDtype where
  | float16
  | float32
deriving DecidableEq

/-- The validated model handle. -/
structure SegModelHandle where
  dtype : NumDtype
  modelHeight : ℤ
  modelWidth : ℤ

/-- `SegModel.__init__` (reached identically through `from_session`): assert
exactly one input, select `np.float16` iff the declared type is
`"tensor(float16)"` (else `np.float32`), destructure the shape as
`B, _, H, W`, and assert `B == 1`. -/
def fromSession (s : Session) : Option SegModelHandle :=
  match s.inputs with
  | [inp] =>
    match inp.shape with
    | [b, _, h, w] =>
      if b = 1 then
        some { dtype := if inp.type = "tensor(float16)" then .float16 else .float32
               modelHeight := h
               modelWidth := w }
      else none
    | _ => none
  | _ => none

/-- C10: for a well-shaped single-input session, construction succeeds for
EVERY declared element type string; the dtype is `float16` exactly for
`"tensor(float16)"` and `float32` for everything else — the type never causes
a failure. -/
theorem fromSession_dtype (nm t : String) (c h w : ℤ) :
    ∃ hd : SegModelHandle,
      fromSession { inputs := [{ name := nm, type := t, shape := [1, c, h, w] }] }
          = some hd ∧
      (hd.dtype = NumDtype.float16 ↔ t = "tensor(float16)") ∧
      (t ≠ "tensor(float16)" → hd.dtype = NumDtype.float32) := by
  refine ⟨{ dtype := if t = "tensor(float16)" then .float16 else .float32
            modelHeight := h, modelWidth := w }, ?_, ?_, ?_⟩
  · rfl
  · by_cases ht : t = "tensor(float16)"
    · simp [ht]
    · simp [ht]
  · intro ht
    simp [ht]

end Microwink
